import Mathlib

/-!
# Verification of the LLM agent retry-and-extraction protocol

Shallow embedding of the two agents of this repository:

* `AgentFileParser.generateUMLBlock` (file `agentClassDiagramGenerator.py`):
  a bounded continuation loop around a chat-completion service, extraction of
  a fenced JSON block, filepath stamping, identifier remapping, and a bounded
  retry wrapper.
* `AgentRecommendations.generateRecommendations` (file `agentRecommendations.py`):
  prompt building from a UML structure and a scan result, one completion call,
  fence stripping, JSON parsing, date stamping, required-key validation,
  positional id reconciliation, and the same retry wrapper.

External collaborators (the OpenAI client, `json.loads`, `uuid4`, `datetime.now`,
`str()` rendering of Python values) are modelled as parameters of an environment
record; the repository's own logic is translated statement by statement.
Python runtime behaviour that the code relies on (dict/`in`/indexing semantics,
truthiness, exceptions) is modelled explicitly: machine-level exceptions become
`Except PyErr`, a `try/except` becomes a `match` on that value, and a function
that can fall off the end returns an `Option`.

JSON values are modelled by the inductive `JVal`; Python dicts are association
lists whose update keeps the position of an existing key, as CPython does.
-/

set_option autoImplicit false

namespace Agents

/-- JSON-like values, as produced by `json.loads` and handled by both agents.
Numbers are modelled as integers (no claim depends on float behaviour). -/
inductive JVal where
  | null
  | bool (b : Bool)
  | num (n : Int)
  | str (s : String)
  | arr (xs : List JVal)
  | obj (fields : List (String × JVal))

/-- Python exceptions that the translated code can raise. Which exception is
raised is never observable past an `except` boundary in this code base, but the
distinction is kept for faithfulness. -/
inductive PyErr where
  | typeError
  | keyError
  | indexError
  | attrError
deriving DecidableEq

/-- One turn of the conversation transcript (`{"role": ..., "content": ...}`). -/
structure Msg where
  role : String
  content : String
deriving DecidableEq

/-- `d[k]` lookup on a Python dict (first matching key of the assoc list). -/
def getKey? : List (String × JVal) → String → Option JVal
  | [], _ => none
  | (k', v') :: rest, k => if k' = k then some v' else getKey? rest k

/-- `d[k] = v` on a Python dict: replace the first occurrence of `k` keeping
its position, else append the new entry at the end (CPython insertion order). -/
def setKey : List (String × JVal) → String → JVal → List (String × JVal)
  | [], k, v => [(k, v)]
  | (k', v') :: rest, k, v =>
    if k' = k then (k, v) :: rest else (k', v') :: setKey rest k v

/-- `k in d` on a Python dict. -/
def hasKey (fs : List (String × JVal)) (k : String) : Bool :=
  (getKey? fs k).isSome

/-- Python `for x in v`: lists yield their elements, strings their one-character
substrings, dicts their keys; other values raise `TypeError`. -/
def pyIterate : JVal → Except PyErr (List JVal)
  | .arr xs => .ok xs
  | .str s => .ok (s.toList.map fun c => .str (String.singleton c))
  | .obj fs => .ok (fs.map fun p => .str p.1)
  | _ => .error .typeError

/-- Python `v[key]` with a string key: dict lookup (`KeyError` when absent),
`TypeError` on anything else. -/
def pyGetItemStr (v : JVal) (key : String) : Except PyErr JVal :=
  match v with
  | .obj fs =>
    match getKey? fs key with
    | some x => .ok x
    | none => .error .keyError
  | _ => .error .typeError

/-- Python `v[i]` with a non-negative integer index: list/string indexing
(`IndexError` out of range), `KeyError` for a dict without that key,
`TypeError` otherwise. -/
def pyGetItemNat (v : JVal) (i : Nat) : Except PyErr JVal :=
  match v with
  | .arr xs =>
    match xs.get? i with
    | some x => .ok x
    | none => .error .indexError
  | .str s =>
    match s.toList.get? i with
    | some c => .ok (.str (String.singleton c))
    | none => .error .indexError
  | .obj _ => .error .keyError
  | _ => .error .typeError

/-- Python truthiness of a JSON value (`if v:`). -/
def truthy : JVal → Bool
  | .null => false
  | .bool b => b
  | .num n => n != 0
  | .str s => !s.isEmpty
  | .arr xs => !xs.isEmpty
  | .obj fs => !fs.isEmpty

/-- Structural equality on JSON values, modelling Python `==` for the
comparisons this code performs (string membership tests in lists). -/
def beqJVal : JVal → JVal → Bool
  | .null, .null => true
  | .bool a, .bool b => a == b
  | .num a, .num b => a == b
  | .str a, .str b => a == b
  | .arr a, .arr b => beqJValList a b
  | .obj a, .obj b => beqJValFields a b
  | _, _ => false

where
  beqJValList : List JVal → List JVal → Bool
    | [], [] => true
    | x :: xs, y :: ys => beqJVal x y && beqJValList xs ys
    | _, _ => false
  beqJValFields : List (String × JVal) → List (String × JVal) → Bool
    | [], [] => true
    | (k, v) :: xs, (k', v') :: ys => k == k' && beqJVal v v' && beqJValFields xs ys
    | _, _ => false

/-- Index of the first occurrence of `pat` in `hay` (cf. `re.search` /
`str.find` for a fixed pattern). -/
def findSubstr (pat : List Char) : List Char → Option Nat
  | [] => if pat = [] then some 0 else none
  | c :: t =>
    if pat.isPrefixOf (c :: t) then some 0
    else (findSubstr pat t).map (· + 1)

/-- Python `key in s` for strings: substring test. -/
def strContains (s key : String) : Bool :=
  (findSubstr key.toList s.toList).isSome

/-- Python `key in entry` — raises `TypeError` for values that support no
membership test. -/
def pyContains (entry : JVal) (key : String) : Except PyErr Bool :=
  match entry with
  | .obj fs => .ok (hasKey fs key)
  | .str s => .ok (strContains s key)
  | .arr xs => .ok (xs.any fun x => beqJVal x (.str key))
  | _ => .error .typeError

/-- Last `n` characters of a string (Python `s[-n:]`). -/
def strLastN (n : Nat) (s : String) : String :=
  String.mk (s.toList.drop (s.toList.length - n))

/-! ## RecommendationAgent (`agentRecommendations.py`)

`AgentRecommendations` is translated for its default configuration
(`sweType = "creation"`, which every path of the claims uses). -/

/-- Result of one completion call as consumed by `AgentRecommendations.__runLLM`
(`response, promptTokens, completionTokens`). -/
structure RecCompletion where
  text : String
  promptTokens : Nat
  completionTokens : Nat

/-- External collaborators of the recommendation agent, fixed for one
`generateRecommendations` call: the completion service (indexed by the global
number of calls made so far; `.error` is a transport failure), `json.loads`
(`none` is `json.decoder.JSONDecodeError`), Python `str()` rendering, and the
wall clock value `str(datetime.now())`. -/
structure RecEnv where
  llm : Nat → Except Unit RecCompletion
  jparse : String → Option JVal
  pyStr : JVal → String
  now : String

/-- The characters of the fence opener `"```json\n"` matched by the
`re.sub`/`re.search` patterns. -/
def openFence : List Char := "```json\n".toList

/-- The characters of a plain triple-backtick fence marker. -/
def tickFence : List Char := "```".toList

/-- One left-to-right pass of `re.sub(r"```json\n|```", "", response)`:
at each position the alternation tries `"```json\n"` first, then `"```"`;
a match is deleted and scanning resumes after it. `fuel` only bounds the
recursion depth; with `fuel = cs.length` (at least one character is consumed
per step) the fuel case is unreachable. -/
def removeFencesAux : Nat → List Char → List Char
  | 0, cs => cs
  | fuel + 1, cs =>
    match cs with
    | [] => []
    | c :: rest =>
      if openFence.isPrefixOf cs then removeFencesAux fuel (cs.drop openFence.length)
      else if tickFence.isPrefixOf cs then removeFencesAux fuel (cs.drop tickFence.length)
      else c :: removeFencesAux fuel rest

/-- `re.sub(r"```json\n|```", "", response)` in `__getRecommendations`. -/
def removeFences (s : String) : String :=
  String.mk (removeFencesAux s.toList.length s.toList)

/-- One reduced node dict built by the `uml` loop of `__getRecommendations`
(`umlDict["id"] = info.get("id", "")` and so on, in insertion order). -/
def reducedUmlDict (fs : List (String × JVal)) : JVal :=
  .obj [
    ("id", (getKey? fs "id").getD (.str "")),
    ("name", (getKey? fs "name").getD (.str "")),
    ("attribute", (getKey? fs "attribute").getD (.str "")),
    ("desc", (getKey? fs "desc").getD (.str "")),
    ("operation", (getKey? fs "operation").getD (.str "")),
    ("type", (getKey? fs "type").getD (.str ""))]

/-- The `for info in self.__umlStructure["node"]` loop: `.get` on a non-dict
element raises `AttributeError`, which no `except` clause of this function
catches. -/
def collectUmlDicts : List JVal → Except PyErr (List JVal)
  | [] => .ok []
  | .obj fs :: rest => do
    let r ← collectUmlDicts rest
    .ok (reducedUmlDict fs :: r)
  | _ :: _ => .error .attrError

/-- One reduced connection dict built by the `connection` loop. -/
def reducedConnDict (fs : List (String × JVal)) : JVal :=
  .obj [
    ("connectionId", (getKey? fs "connectionId").getD (.str "")),
    ("source", (getKey? fs "source").getD (.str "")),
    ("target", (getKey? fs "target").getD (.str "")),
    ("role", (getKey? fs "role").getD (.str "")),
    ("type", (getKey? fs "type").getD (.str "")),
    ("multiplicity", (getKey? fs "multiplicity").getD (.str ""))]

/-- The `for connection in self.__umlStructure["connection"]` loop. -/
def collectConnDicts : List JVal → Except PyErr (List JVal)
  | [] => .ok []
  | .obj fs :: rest => do
    let r ← collectConnDicts rest
    .ok (reducedConnDict fs :: r)
  | _ :: _ => .error .attrError

/-- One reduced scan dict; severity/summary fields are added only when the
scan's `analysisType` equals `"vulnerability"`. -/
def reducedScanDict (vuln : Bool) (fs : List (String × JVal)) : JVal :=
  .obj ([("id", (getKey? fs "id").getD (.str "")),
         ("name", (getKey? fs "name").getD (.str ""))] ++
    (if vuln then
      [("vulnerabilitySeverity", (getKey? fs "vulnerabilitySeverity").getD (.str "")),
       ("vulnerabilitySummary", (getKey? fs "vulnerabilitySummary").getD (.str ""))]
     else []))

/-- The `for scan in self.__scanResult["result"]` loop. -/
def collectScanDicts (vuln : Bool) : List JVal → Except PyErr (List JVal)
  | [] => .ok []
  | .obj fs :: rest => do
    let r ← collectScanDicts vuln rest
    .ok (reducedScanDict vuln fs :: r)
  | _ :: _ => .error .attrError

/-- The `uml` block of `__getRecommendations`: a missing `"node"` key or a
non-list value raises `KeyError`/`TypeError`, both caught, leaving `uml`
empty, hence `umlStructureString = None`; a missing `"codingLanguage"` raises
`KeyError` after the per-node dicts were already appended, so the string is
still built from them (the final assignment overwrites the `except` one). -/
def buildUmlStr (pyStr : JVal → String) (uml : List (String × JVal)) :
    Except PyErr (Option String) :=
  match getKey? uml "node" with
  | none => .ok none
  | some (.arr infos) =>
    match collectUmlDicts infos with
    | .error e => .error e
    | .ok ds =>
      match getKey? uml "codingLanguage" with
      | none => .ok (if ds.isEmpty then none else some (pyStr (.arr ds)))
      | some cl => .ok (some (pyStr (.arr (ds ++ [.obj [("codingLanguage", cl)]]))))
  | some _ => .ok none

/-- The `connection` block: `umlStructure.get("connection")` not being a list
raises a caught `TypeError`, leaving the list empty, hence `None`. -/
def buildConnStr (pyStr : JVal → String) (uml : List (String × JVal)) :
    Except PyErr (Option String) :=
  match getKey? uml "connection" with
  | some (.arr conns) =>
    match collectConnDicts conns with
    | .error e => .error e
    | .ok ds => .ok (if ds.isEmpty then none else some (pyStr (.arr ds)))
  | _ => .ok none

/-- The scan block: `scanResult.get("result")` must be a list, and the
severity fields are reduced only for `analysisType == "vulnerability"`. -/
def buildScanStr (pyStr : JVal → String) (scan : List (String × JVal)) :
    Except PyErr (Option String) :=
  match getKey? scan "result" with
  | some (.arr rs) =>
    let vuln : Bool :=
      match getKey? scan "analysisType" with
      | some (.str s) => s = "vulnerability"
      | _ => false
    match collectScanDicts vuln rs with
    | .error e => .error e
    | .ok ds => .ok (if ds.isEmpty then none else some (pyStr (.arr ds)))
  | _ => .ok none

/-- Python `format` renders `None` as the string `"None"`. -/
def optStr : Option String → String
  | none => "None"
  | some s => s

/-- The user prepend message of `__getRecommendations`. -/
def recPrependMsg (us cs ss : Option String) : String :=
  "Here is the UML content:\n" ++ optStr us ++
  "\n\nHere is the connection string:\n" ++ optStr cs ++
  "\n\nHere is the scan summary generated for every node:\n" ++ optStr ss ++ "\n"

/-- The date-stamping loop of `__getRecommendations`: for every dict in the
parsed list whose `recommendation` value is truthy, set `recommendationDate`
to the current time; reading `node["recommendation"]` raises `KeyError` when
absent (caught only by the enclosing `except Exception`, failing the attempt);
non-dict entries are skipped. -/
def stampDates (now : String) : List JVal → Except PyErr (List JVal)
  | [] => .ok []
  | .obj fs :: rest =>
    match getKey? fs "recommendation" with
    | none => .error .keyError
    | some rv => do
      let r ← stampDates now rest
      .ok (.obj (if truthy rv then setKey fs "recommendationDate" (.str now) else fs) :: r)
  | v :: rest => do
    let r ← stampDates now rest
    .ok (v :: r)

/-- `AgentRecommendations.__getRecommendations`. Returns the fields of the
`recommendationSummary` dict (`result`, `promptTokens`, `completionTokens`),
or `none` when the attempt fails inside the `try` blocks (transport error,
JSON decode error, or a stamping exception — all caught there, the function
then falling off the end), or a `PyErr` when prompt building raises before
the `try` (propagating to the caller's `except`). The transcript and the
completion-call counter are threaded state (`self.__messages` persists). -/
def getRecommendations (env : RecEnv) (uml scan : List (String × JVal))
    (msgs : List Msg) (k : Nat) :
    Except PyErr (Option (List (String × JVal))) × List Msg × Nat :=
  match buildUmlStr env.pyStr uml with
  | .error e => (.error e, msgs, k)
  | .ok us =>
    match buildConnStr env.pyStr uml with
    | .error e => (.error e, msgs, k)
    | .ok cs =>
      match buildScanStr env.pyStr scan with
      | .error e => (.error e, msgs, k)
      | .ok ss =>
        let msgs1 := msgs ++ [⟨"user", recPrependMsg us cs ss⟩]
        match env.llm k with
        | .error _ => (.ok none, msgs1, k + 1)
        | .ok c =>
          match env.jparse (removeFences c.text) with
          | none => (.ok none, msgs1, k + 1)
          | some v =>
            match v with
            | .arr entries =>
              match stampDates env.now entries with
              | .error _ => (.ok none, msgs1, k + 1)
              | .ok entries' =>
                (.ok (some [("result", .arr entries'),
                            ("promptTokens", .num (c.promptTokens : Int)),
                            ("completionTokens", .num (c.completionTokens : Int))]),
                 msgs1, k + 1)
            | _ =>
              (.ok (some [("result", v),
                          ("promptTokens", .num (c.promptTokens : Int)),
                          ("completionTokens", .num (c.completionTokens : Int))]),
               msgs1, k + 1)

/-- `requiredKeys` of `generateRecommendations` for `sweType == "creation"`. -/
def requiredKeys : List String :=
  ["name", "recommendation", "recommendationSummary", "recommendationDate"]

/-- `key in entry` for every required key (inner loop of the `missingKeys`
set comprehension); errors propagate as in Python. -/
def entryHasKeys (e : JVal) : List String → Except PyErr Bool
  | [] => .ok true
  | key :: rest => do
    let b ← pyContains e key
    let b' ← entryHasKeys e rest
    .ok (b && b')

/-- The `missingKeys` comprehension over all entries: `.ok true` iff no
required key is missing from any entry. -/
def checkEntries : List JVal → Except PyErr Bool
  | [] => .ok true
  | e :: rest => do
    let b ← entryHasKeys e requiredKeys
    let b' ← checkEntries rest
    .ok (b && b')

/-- The reconciliation loop
`for i, node in enumerate(recommendationSummary['result']):
   node['id'] = self.__scanResult['result'][i]['id']` —
the right-hand side is evaluated first (`KeyError`/`IndexError`/`TypeError`
possible), then the assignment requires `node` to be a dict. -/
def reconcileEntries (scan : List (String × JVal)) : Nat → List JVal → Except PyErr (List JVal)
  | _, [] => .ok []
  | i, node :: rest =>
    match getKey? scan "result" with
    | none => .error .keyError
    | some sr =>
      match pyGetItemNat sr i with
      | .error e => .error e
      | .ok se =>
        match pyGetItemStr se "id" with
        | .error e => .error e
        | .ok idv =>
          match node with
          | .obj fs => do
            let rest' ← reconcileEntries scan (i + 1) rest
            .ok (.obj (setKey fs "id" idv) :: rest')
          | _ => .error .typeError

/-- Reconciliation of the whole `result` value: Python iterates it (so an
empty string or empty dict passes vacuously and is returned unchanged), and
only a list visibly holds the mutated entries. -/
def reconcile (scan : List (String × JVal)) (resultVal : JVal) : Except PyErr JVal :=
  match pyIterate resultVal with
  | .error e => .error e
  | .ok entries =>
    match reconcileEntries scan 0 entries with
    | .error e => .error e
    | .ok entries' =>
      match resultVal with
      | .arr _ => .ok (.arr entries')
      | _ => .ok resultVal

/-- The non-`None` branch of the retry loop body of `generateRecommendations`:
compute `missingKeys` over `recommendationSummary.get("result", [])`; when
empty, reconcile ids positionally and return the summary; a non-empty set
falls through to the next attempt; any exception is caught by the enclosing
`except`. -/
def validateAndReconcile (scan : List (String × JVal)) (rsf : List (String × JVal)) :
    Except PyErr (Option JVal) :=
  let resultVal := (getKey? rsf "result").getD (.arr [])
  match pyIterate resultVal with
  | .error e => .error e
  | .ok entries =>
    match checkEntries entries with
    | .error e => .error e
    | .ok false => .ok none
    | .ok true =>
      match reconcile scan resultVal with
      | .error e => .error e
      | .ok newResult => .ok (some (.obj (setKey rsf "result" newResult)))

/-- The retry loop of `generateRecommendations` (`for attempt in range(retries)`):
a failed or exception-raising attempt consumes one retry; the loop falls off
the end returning `None` after exhaustion. -/
def generateRecLoop (env : RecEnv) (uml scan : List (String × JVal)) :
    Nat → List Msg → Nat → Option JVal × List Msg × Nat
  | 0, msgs, k => (none, msgs, k)
  | n + 1, msgs, k =>
    match getRecommendations env uml scan msgs k with
    | (.error _, msgs', k') => generateRecLoop env uml scan n msgs' k'
    | (.ok none, msgs', k') => generateRecLoop env uml scan n msgs' k'
    | (.ok (some rsf), msgs', k') =>
      match validateAndReconcile scan rsf with
      | .error _ => generateRecLoop env uml scan n msgs' k'
      | .ok none => generateRecLoop env uml scan n msgs' k'
      | .ok (some out) => (some out, msgs', k')

/-- `AgentRecommendations.generateRecommendations` (retries defaults to 5 in
the source when `None` is passed). -/
def generateRecommendations (env : RecEnv) (uml scan : List (String × JVal))
    (retries : Nat) (msgs : List Msg) (k : Nat) : Option JVal × List Msg × Nat :=
  generateRecLoop env uml scan retries msgs k

/-! ## FileToUMLAgent (`agentClassDiagramGenerator.py`) -/

/-- Result of one completion call as consumed by `AgentFileParser.__runLLM`
(`response, promptTokens, completionTokens, stopReason`). -/
structure Completion where
  text : String
  promptTokens : Nat
  completionTokens : Nat
  stopReason : String

/-- External collaborators of the file-parsing agent: the completion service
(indexed by the global number of calls), `json.loads` and the `uuid4` stream
(the `n`-th call of `str(uuid4())` within one agent's lifetime). -/
structure UMLEnv where
  llm : Nat → Except Unit Completion
  jparse : String → Option JVal
  uuids : Nat → String

/-- The user prepend message of `__extractUMLContent`; `render` stands for
`str(codeRepo)`, the Python rendering of the one-element file-structure list. -/
def umlPrependMsg (render : String) : String :=
  "==============\nFILE STRUCTURE\n=============\n" ++ render ++
  "\n\nRemember: You are the best UML generator. Follow all instructions carefully.\n"

/-- The continuation user turn appended when the model stopped early. -/
def contMsg (response : String) : String :=
  "Continue from where you left off. Here are the last 20 characters of the last response: "
    ++ strLastN 20 response

/-- The continuation loop of `__extractUMLContent`:

`while not isFinished and diagramIteration <= maxIterations` with
`diagramIteration` incremented at the top of the body (`it` here is its value
before the increment), the response appended to the buffer (the first
iteration replaces it), the assistant turn appended to the transcript, exit
on `stopReason == "stop"` or when the bound is exceeded, else a continuation
user turn; a transport exception aborts the attempt (`return None`), and
`isFinished` is never set, so only these exits occur.

`fuel` is a structural recursion bound; called with `fuel = maxIterations + 1 - it`
the fuel-zero case coincides with the loop guard being false (`it > mi` exactly
when the fuel runs out), so the translation is exact — and the call-count bound
below (claim C5) is proved for arbitrary fuel, so it rests on the guard, not on
the fuel. Returns (loop outcome, transcript, next call index); the outcome is
the accumulated buffer with the two token totals, or `none` for an aborted
attempt. -/
def umlLoop (llm : Nat → Except Unit Completion) (mi : Nat) :
    Nat → Nat → List Msg → String → Nat → Nat → Nat →
    Option (String × Nat × Nat) × List Msg × Nat
  | 0, _, msgs, buf, tp, tc, k => (some (buf, tp, tc), msgs, k)
  | fuel + 1, it, msgs, buf, tp, tc, k =>
    if it ≤ mi then
      match llm k with
      | .error _ => (none, msgs, k + 1)
      | .ok c =>
        let buf' := if it + 1 = 1 then c.text else buf ++ c.text
        let tp' := tp + c.promptTokens
        let tc' := tc + c.completionTokens
        let msgs' := msgs ++ [⟨"assistant", c.text⟩]
        if c.stopReason = "stop" then (some (buf', tp', tc'), msgs', k + 1)
        else if it + 1 > mi then (some (buf', tp', tc'), msgs', k + 1)
        else
          umlLoop llm mi fuel (it + 1) (msgs' ++ [⟨"user", contMsg c.text⟩]) buf' tp' tc' (k + 1)
    else (some (buf, tp, tc), msgs, k)

/-- `re.search("```json\n(.*?)\n```", s, re.DOTALL)`: the match starts at the
first occurrence of the opening fence, and the non-greedy group ends at the
first later occurrence of `"\n```"`. -/
def extractFenced (s : String) : Option String :=
  match findSubstr openFence s.toList with
  | none => none
  | some i =>
    let after := s.toList.drop (i + openFence.length)
    match findSubstr ("\n```".toList) after with
    | none => none
    | some j => some (String.mk (after.take j))

/-- `v` is iterable in Python (`for x in v` does not raise). -/
def iterOK : JVal → Bool
  | .arr _ => true
  | .str _ => true
  | .obj _ => true
  | _ => false

/-- The node-stamping loop `nodeBlock["filepath"] = fileStructure.get("path", "")`:
item assignment on a non-dict element raises `TypeError` (uncaught here). -/
def stampList (path : String) : List JVal → Except PyErr (List JVal)
  | [] => .ok []
  | .obj fs :: rest => do
    let r ← stampList path rest
    .ok (.obj (setKey fs "filepath" (.str path)) :: r)
  | _ :: _ => .error .typeError

/-- Stamping applied to the `"node"` value: iterating a non-iterable raises
`TypeError`; only a list visibly keeps the mutated elements (iterating a
string or dict yields fresh values, and any non-empty such iteration raises on
the item assignment anyway). -/
def stampNodes (path : String) (nv : JVal) : Except PyErr JVal :=
  match pyIterate nv with
  | .error e => .error e
  | .ok elems =>
    match stampList path elems with
    | .error e => .error e
    | .ok elems' =>
      match nv with
      | .arr _ => .ok (.arr elems')
      | _ => .ok nv

/-- The post-loop `try` block of `__extractUMLContent`, after the fenced block
was found and parsed: `trimmedResponse.get("node", [])` requires a dict
(`AttributeError` on anything else is caught, failing the attempt), every node
is stamped with the file's path, the `connection` value is only iterated
(`pass`), and the token totals are attached. `TypeError` from stamping or from
iterating a non-iterable `connection` is NOT in the caught tuple and
propagates. -/
def processParsed (path : String) (tp tc : Nat) (parsed : JVal) :
    Except PyErr (Option JVal) :=
  match parsed with
  | .obj fields =>
    match stampNodes path ((getKey? fields "node").getD (.arr [])) with
    | .error e => .error e
    | .ok nodesVal' =>
      if iterOK ((getKey? fields "connection").getD (.arr [])) then
        let fields1 := if hasKey fields "node" then setKey fields "node" nodesVal' else fields
        let fields2 := setKey fields1 "promptTokens" (.num (tp : Int))
        let fields3 := setKey fields2 "completionTokens" (.num (tc : Int))
        .ok (some (.obj fields3))
      else .error .typeError
  | _ => .ok none

/-- `AgentFileParser.__extractUMLContent`: append the user prepend turn, run
the continuation loop (fuel `mi + 1` makes the fuel bound inert), then search
the accumulated buffer for the fenced JSON block (no match: `ValueError`,
caught) and parse it (decode failure caught). Returns the attempt outcome
(`.error` for an exception that escapes to `generateUMLBlock`'s `except`),
the updated transcript and the next call index. -/
def extractUMLContent (env : UMLEnv) (path render : String) (mi : Nat)
    (msgs : List Msg) (k : Nat) :
    Except PyErr (Option JVal) × List Msg × Nat :=
  let msgs1 := msgs ++ [⟨"user", umlPrependMsg render⟩]
  match umlLoop env.llm mi (mi + 1) 0 msgs1 "" 0 0 k with
  | (none, msgs2, k2) => (.ok none, msgs2, k2)
  | (some (buf, tp, tc), msgs2, k2) =>
    match extractFenced buf with
    | none => (.ok none, msgs2, k2)
    | some body =>
      match env.jparse body with
      | none => (.ok none, msgs2, k2)
      | some parsed => (processParsed path tp tc parsed, msgs2, k2)

/-- `hash(v)` does not raise in CPython: every JSON scalar (`None`, booleans,
numbers, strings) is hashable, lists and dicts are not. -/
def hashable : JVal → Bool
  | .arr _ => false
  | .obj _ => false
  | _ => true

/-- The loop of `__uuidMapper` over `result["node"]`: for every element the
right-hand side `str(uuid4())` is evaluated first (consuming one identifier),
then `newBlock["id"]` is read (`KeyError` when absent, `TypeError` on a
non-dict), used as the key of the `uuidMapper` dict — where an unhashable
(list or dict) id raises `TypeError` — and overwritten with the fresh
identifier. Returns the remapped elements together with the next unused
identifier index (also on error, since the uuid was already drawn). -/
def remapNodes (uuids : Nat → String) : Nat → List JVal → Except PyErr (List JVal) × Nat
  | u, [] => (.ok [], u)
  | u, .obj fs :: rest =>
    match getKey? fs "id" with
    | none => (.error .keyError, u + 1)
    | some oldId =>
      if hashable oldId then
        match remapNodes uuids (u + 1) rest with
        | (.error e, u') => (.error e, u')
        | (.ok rest', u') => (.ok (.obj (setKey fs "id" (.str (uuids u))) :: rest'), u')
      else (.error .typeError, u + 1)
  | u, _ :: _ => (.error .typeError, u + 1)

/-- `AgentFileParser.__uuidMapper`: `result["node"]` (`KeyError` when the key
is absent — this is where an attempt on a parsed object without `node` dies),
iterate it remapping every id. Only a list visibly keeps the remapped
elements. -/
def uuidMapper (uuids : Nat → String) (u : Nat) (result : JVal) :
    Except PyErr JVal × Nat :=
  match result with
  | .obj fields =>
    match getKey? fields "node" with
    | none => (.error .keyError, u)
    | some nv =>
      match pyIterate nv with
      | .error _ => (.error .typeError, u)
      | .ok elems =>
        match remapNodes uuids u elems with
        | (.error e, u') => (.error e, u')
        | (.ok elems', u') =>
          match nv with
          | .arr _ => (.ok (.obj (setKey fields "node" (.arr elems'))), u')
          | _ => (.ok (.obj fields), u')
  | _ => (.error .typeError, u)

/-- The retry loop of `generateUMLBlock` (`for attempt in range(retries)`):
any exception of an attempt is caught (`except Exception`), a `None` extraction
falls through, the first successful extract+remap is returned, and exhaustion
falls off the end returning `None`. The transcript, the completion-call index
and the uuid index persist across attempts (`self.__messages` is never reset). -/
def generateUMLLoop (env : UMLEnv) (path render : String) (mi : Nat) :
    Nat → List Msg → Nat → Nat → Option JVal × List Msg × Nat × Nat
  | 0, msgs, k, u => (none, msgs, k, u)
  | n + 1, msgs, k, u =>
    match extractUMLContent env path render mi msgs k with
    | (.error _, msgs', k') => generateUMLLoop env path render mi n msgs' k' u
    | (.ok none, msgs', k') => generateUMLLoop env path render mi n msgs' k' u
    | (.ok (some v), msgs', k') =>
      match uuidMapper env.uuids u v with
      | (.error _, u') => generateUMLLoop env path render mi n msgs' k' u'
      | (.ok v', u') => (some v', msgs', k', u')

/-- `AgentFileParser.generateUMLBlock` (retries defaults to 5 in the source
when `None` is passed). -/
def generateUMLBlock (env : UMLEnv) (path render : String) (mi retries : Nat)
    (msgs : List Msg) (k u : Nat) : Option JVal × List Msg × Nat × Nat :=
  generateUMLLoop env path render mi retries msgs k u

/-- The `id` value of a node entry, when it is a dict carrying one. -/
def idOf : JVal → Option JVal
  | .obj fs => getKey? fs "id"
  | _ => none

/-- The ids carried by the `node` entries of a parsed or produced UML graph
value (entries that are dicts with an `id` key; exactly the ids `__uuidMapper`
reads and rewrites). -/
def nodeIds (v : JVal) : List JVal :=
  match v with
  | .obj fields =>
    match getKey? fields "node" with
    | some (.arr xs) => xs.filterMap idOf
    | _ => []
  | _ => []

/-- The `node` entries of a produced UML graph value. -/
def nodesOf (v : JVal) : List JVal :=
  match v with
  | .obj fields =>
    match getKey? fields "node" with
    | some (.arr xs) => xs
    | _ => []
  | _ => []

/-- Concatenation of the response texts of `n` consecutive completion calls
starting at call index `k` (failed transport calls contribute nothing; on the
paths where this is used no failed call occurs). -/
def concatTexts (llm : Nat → Except Unit Completion) : Nat → Nat → String
  | _, 0 => ""
  | k, n + 1 =>
    (match llm k with
     | .ok c => c.text
     | .error _ => "") ++ concatTexts llm (k + 1) n

/-! ## Dictionary lemmas -/

theorem getKey?_setKey_self (fs : List (String × JVal)) (k : String) (v : JVal) :
    getKey? (setKey fs k v) k = some v := by
  induction fs with
  | nil => simp [setKey, getKey?]
  | cons p rest ih =>
    rcases p with ⟨k', v'⟩
    by_cases h : k' = k
    · simp [setKey, h, getKey?]
    · simp [setKey, h, getKey?, ih]

theorem getKey?_setKey_ne (fs : List (String × JVal)) (k k' : String) (v : JVal)
    (h : k ≠ k') : getKey? (setKey fs k v) k' = getKey? fs k' := by
  induction fs with
  | nil => simp [setKey, getKey?, h]
  | cons p rest ih =>
    rcases p with ⟨a, b⟩
    by_cases ha : a = k
    · subst ha; simp [setKey, getKey?, h]
    · simp [setKey, ha, getKey?, ih]

theorem hasKey_setKey_self (fs : List (String × JVal)) (k : String) (v : JVal) :
    hasKey (setKey fs k v) k = true := by
  simp [hasKey, getKey?_setKey_self]

theorem hasKey_setKey_ne (fs : List (String × JVal)) (k k' : String) (v : JVal)
    (h : k ≠ k') : hasKey (setKey fs k v) k' = hasKey fs k' := by
  simp [hasKey, getKey?_setKey_ne fs k k' v h]

@[simp] theorem exceptBind_ok {ε α β : Type} (a : α) (f : α → Except ε β) :
    (Except.ok a >>= f) = f a := rfl

@[simp] theorem exceptBind_error {ε α β : Type} (e : ε) (f : α → Except ε β) :
    ((Except.error e : Except ε α) >>= f) = Except.error e := rfl

/-! ## RecommendationAgent: characterization lemmas -/

/-- A successful `generateRecommendations` outcome is the outcome of one
attempt whose `__getRecommendations` returned a summary that passed
validation and reconciliation. -/
theorem genRecLoop_success (env : RecEnv) (uml scan : List (String × JVal)) :
    ∀ (n : Nat) (msgs : List Msg) (k : Nat) (out : JVal) (msgs' : List Msg) (k' : Nat),
      generateRecLoop env uml scan n msgs k = (some out, msgs', k') →
      ∃ (msgs0 : List Msg) (k0 : Nat) (rsf : List (String × JVal)),
        getRecommendations env uml scan msgs0 k0 = (.ok (some rsf), msgs', k') ∧
        validateAndReconcile scan rsf = .ok (some out) := by
  intro n
  induction n with
  | zero =>
    intro msgs k out msgs' k' h
    simp [generateRecLoop] at h
  | succ n ih =>
    intro msgs k out msgs' k' h
    rw [generateRecLoop] at h
    rcases hg : getRecommendations env uml scan msgs k with ⟨res, msgs1, k1⟩
    rw [hg] at h
    match res with
    | .error e => exact ih msgs1 k1 out msgs' k' h
    | .ok none => exact ih msgs1 k1 out msgs' k' h
    | .ok (some rsf) =>
      dsimp only at h
      rcases hv : validateAndReconcile scan rsf with e | o
      · rw [hv] at h
        exact ih msgs1 k1 out msgs' k' h
      · rw [hv] at h
        match o with
        | none => exact ih msgs1 k1 out msgs' k' h
        | some out1 =>
          simp at h
          exact ⟨msgs, k, rsf, by rw [← h.2.1, ← h.2.2]; exact hg, by rw [hv, h.1]⟩

/-- A summary returned by `__getRecommendations` always has the shape
`{"result": X, "promptTokens": _, "completionTokens": _}`, where `X` either is
the date-stamped parsed list or is not a list at all. -/
theorem getRec_result (env : RecEnv) (uml scan : List (String × JVal))
    (msgs : List Msg) (k : Nat) (rsf : List (String × JVal))
    (msgs' : List Msg) (k' : Nat)
    (h : getRecommendations env uml scan msgs k = (.ok (some rsf), msgs', k')) :
    ∃ X, getKey? rsf "result" = some X ∧
      ((∃ entries entries', stampDates env.now entries = .ok entries' ∧ X = .arr entries') ∨
       (∀ es, X ≠ .arr es)) := by
  unfold getRecommendations at h
  rcases hu : buildUmlStr env.pyStr uml with e | us <;> rw [hu] at h <;> dsimp only at h
  · simp at h
  rcases hc : buildConnStr env.pyStr uml with e | cs <;> rw [hc] at h <;> dsimp only at h
  · simp at h
  rcases hs : buildScanStr env.pyStr scan with e | ss <;> rw [hs] at h <;> dsimp only at h
  · simp at h
  rcases hl : env.llm k with e | c <;> rw [hl] at h <;> dsimp only at h
  · simp at h
  rcases hj : env.jparse (removeFences c.text) with _ | v <;> rw [hj] at h <;> dsimp only at h
  · simp at h
  match v with
  | .arr entries =>
    dsimp only at h
    rcases hst : stampDates env.now entries with e | entries' <;> rw [hst] at h <;>
      dsimp only at h
    · simp at h
    · simp at h
      refine ⟨.arr entries', ?_, .inl ⟨entries, entries', hst, rfl⟩⟩
      rw [← h.1]; rfl
  | .null =>
    simp at h
    exact ⟨.null, by rw [← h.1]; rfl, .inr (by intro es hx; cases hx)⟩
  | .bool b =>
    simp at h
    exact ⟨.bool b, by rw [← h.1]; rfl, .inr (by intro es hx; cases hx)⟩
  | .num m =>
    simp at h
    exact ⟨.num m, by rw [← h.1]; rfl, .inr (by intro es hx; cases hx)⟩
  | .str s =>
    simp at h
    exact ⟨.str s, by rw [← h.1]; rfl, .inr (by intro es hx; cases hx)⟩
  | .obj fs =>
    simp at h
    exact ⟨.obj fs, by rw [← h.1]; rfl, .inr (by intro es hx; cases hx)⟩

/-- Decomposition of a summary that passed validation and reconciliation. -/
theorem validate_success (scan rsf : List (String × JVal)) (out : JVal)
    (h : validateAndReconcile scan rsf = .ok (some out)) :
    ∃ entries entries',
      checkEntries entries = .ok true ∧
      reconcileEntries scan 0 entries = .ok entries' ∧
      ((∃ xs, (getKey? rsf "result").getD (.arr []) = .arr xs ∧ entries = xs ∧
          out = .obj (setKey rsf "result" (.arr entries'))) ∨
       ((∀ xs, (getKey? rsf "result").getD (.arr []) ≠ .arr xs) ∧
          out = .obj (setKey rsf "result" ((getKey? rsf "result").getD (.arr []))))) := by
  unfold validateAndReconcile at h
  dsimp only at h
  rcases hit : pyIterate ((getKey? rsf "result").getD (.arr [])) with e | entries <;>
    rw [hit] at h <;> (try dsimp only at h)
  · simp at h
  rcases hck : checkEntries entries with e | b <;> rw [hck] at h <;> (try dsimp only at h)
  · simp at h
  match b with
  | false => simp at h
  | true =>
    dsimp only at h
    rcases hrec : reconcile scan ((getKey? rsf "result").getD (.arr [])) with e | newResult <;>
      rw [hrec] at h <;> (try dsimp only at h)
    · simp at h
    simp at h
    unfold reconcile at hrec
    rw [hit] at hrec
    dsimp only at hrec
    rcases hre : reconcileEntries scan 0 entries with e | entries' <;> rw [hre] at hrec <;>
      (try dsimp only at hrec)
    · simp at hrec
    refine ⟨entries, entries', hck, hre, ?_⟩
    rcases hrv : (getKey? rsf "result").getD (.arr []) with _ | _ | _ | _ | xs | _ <;>
      rw [hrv] at hrec hit <;> simp at hrec
    case null => exact .inr ⟨(by intro ys hy; cases hy), (by rw [← h, ← hrec])⟩
    case bool => exact .inr ⟨(by intro ys hy; cases hy), (by rw [← h, ← hrec])⟩
    case num => exact .inr ⟨(by intro ys hy; cases hy), (by rw [← h, ← hrec])⟩
    case str => exact .inr ⟨(by intro ys hy; cases hy), (by rw [← h, ← hrec])⟩
    case obj => exact .inr ⟨(by intro ys hy; cases hy), (by rw [← h, ← hrec])⟩
    case arr =>
      refine .inl ⟨xs, rfl, ?_, (by rw [← h, ← hrec])⟩
      simp [pyIterate] at hit
      exact hit.symm

/-- Per-index characterization of a reconciliation that succeeded: every
output entry is the input dict with its `id` overwritten by the id of the
scan entry at the same position. -/
theorem reconcileEntries_ok (scan : List (String × JVal)) :
    ∀ (es : List JVal) (i : Nat) (es' : List JVal),
      reconcileEntries scan i es = .ok es' →
      es'.length = es.length ∧
      ∀ j e', es'.get? j = some e' →
        ∃ fs sr se idv,
          es.get? j = some (.obj fs) ∧
          getKey? scan "result" = some sr ∧
          pyGetItemNat sr (i + j) = .ok se ∧
          pyGetItemStr se "id" = .ok idv ∧
          e' = .obj (setKey fs "id" idv) := by
  intro es
  induction es with
  | nil =>
    intro i es' h
    simp [reconcileEntries] at h
    subst h
    exact ⟨rfl, by intro j e' hj; simp at hj⟩
  | cons node rest ih =>
    intro i es' h
    unfold reconcileEntries at h
    rcases hsr : getKey? scan "result" with _ | sr
    · rw [hsr] at h; simp at h
    rw [hsr] at h; dsimp only at h
    rcases hse : pyGetItemNat sr i with e | se
    · rw [hse] at h; simp at h
    rw [hse] at h; dsimp only at h
    rcases hid : pyGetItemStr se "id" with e | idv
    · rw [hid] at h; simp at h
    rw [hid] at h; dsimp only at h
    match node with
    | .obj fs =>
      dsimp only at h
      rcases hrest : reconcileEntries scan (i + 1) rest with e | rest'
      · rw [hrest] at h; simp at h
      rw [hrest] at h; simp at h
      obtain ⟨hlen, hrec⟩ := ih (i + 1) rest' hrest
      subst h
      refine ⟨by simp [hlen], ?_⟩
      intro j e' hj
      match j with
      | 0 =>
        have he : e' = .obj (setKey fs "id" idv) := by
          have : some (JVal.obj (setKey fs "id" idv)) = some e' := hj
          exact (Option.some_inj.mp this).symm
        refine ⟨fs, sr, se, idv, rfl, rfl, ?_, hid, he⟩
        simpa using hse
      | j + 1 =>
        have hj' : rest'.get? j = some e' := hj
        obtain ⟨fs1, sr1, se1, idv1, h1, h2, h3, h4, h5⟩ := hrec j e' hj'
        rw [hsr] at h2
        obtain rfl : sr = sr1 := Option.some_inj.mp h2
        refine ⟨fs1, sr, se1, idv1, h1, rfl, ?_, h4, h5⟩
        have harith : i + 1 + j = i + (j + 1) := by omega
        rw [← harith]
        exact h3
    | .null => simp at h
    | .bool b => simp at h
    | .num m => simp at h
    | .str s => simp at h
    | .arr xs => simp at h

/-- A validation pass that answered `.ok true` certifies every required key
on every entry. -/
theorem entryHasKeys_true (e : JVal) :
    ∀ keys, entryHasKeys e keys = .ok true → ∀ key ∈ keys, pyContains e key = .ok true := by
  intro keys
  induction keys with
  | nil => intro _ key hk; simp at hk
  | cons key0 rest ih =>
    intro h key hk
    unfold entryHasKeys at h
    rcases hc : pyContains e key0 with er | b
    · rw [hc] at h; simp at h
    rw [hc] at h
    try dsimp only at h
    rcases hr : entryHasKeys e rest with er | b'
    · rw [hr] at h; simp at h
    rw [hr] at h; simp at h
    rcases List.mem_cons.mp hk with rfl | hk'
    · rw [hc, h.1]
    · exact ih (by rw [hr, h.2]) key hk' 

theorem checkEntries_true :
    ∀ es, checkEntries es = .ok true →
      ∀ e ∈ es, ∀ key ∈ requiredKeys, pyContains e key = .ok true := by
  intro es
  induction es with
  | nil => intro _ e he; simp at he
  | cons e0 rest ih =>
    intro h e he key hk
    unfold checkEntries at h
    rcases hc : entryHasKeys e0 requiredKeys with er | b
    · rw [hc] at h; simp at h
    rw [hc] at h
    try dsimp only at h
    rcases hr : checkEntries rest with er | b'
    · rw [hr] at h; simp at h
    rw [hr] at h; simp at h
    rcases List.mem_cons.mp he with rfl | he'
    · exact entryHasKeys_true e requiredKeys (by rw [hc, h.1]) key hk
    · exact ih (by rw [hr, h.2]) e he' key hk

/-- Per-index characterization of date stamping: every dict that survives has
a `recommendation` value, and when that value is truthy its
`recommendationDate` equals the current time. -/
theorem stampDates_ok (now : String) :
    ∀ es es', stampDates now es = .ok es' →
      ∀ j fs', es'.get? j = some (.obj fs') →
        ∃ rv, getKey? fs' "recommendation" = some rv ∧
          (truthy rv = true → getKey? fs' "recommendationDate" = some (.str now)) := by
  intro es
  induction es with
  | nil =>
    intro es' h j fs' hj
    simp [stampDates] at h
    subst h
    simp at hj
  | cons v rest ih =>
    intro es' h j fs' hj
    match v with
    | .obj fs =>
      unfold stampDates at h
      rcases hrv : getKey? fs "recommendation" with _ | rv
      · rw [hrv] at h; simp at h
      rw [hrv] at h; dsimp only at h
      rcases hr : stampDates now rest with er | r
      · rw [hr] at h; simp at h
      rw [hr] at h; simp at h
      subst h
      match j with
      | 0 =>
        simp at hj
        by_cases ht : truthy rv = true
        · rw [if_pos ht] at hj
          refine ⟨rv, ?_, fun _ => ?_⟩
          · rw [← hj, getKey?_setKey_ne _ _ _ _ (by decide), hrv]
          · rw [← hj, getKey?_setKey_self]
        · rw [if_neg ht] at hj
          subst hj
          exact ⟨rv, hrv, fun hc => absurd hc ht⟩
      | j + 1 =>
        exact ih r hr j fs' hj
    | .null =>
      unfold stampDates at h
      rcases hr : stampDates now rest with er | r
      · rw [hr] at h; simp at h
      rw [hr] at h; simp at h
      subst h
      match j with
      | 0 => simp at hj
      | j + 1 => exact ih r hr j fs' hj
    | .bool b =>
      unfold stampDates at h
      rcases hr : stampDates now rest with er | r
      · rw [hr] at h; simp at h
      rw [hr] at h; simp at h
      subst h
      match j with
      | 0 => simp at hj
      | j + 1 => exact ih r hr j fs' hj
    | .num m =>
      unfold stampDates at h
      rcases hr : stampDates now rest with er | r
      · rw [hr] at h; simp at h
      rw [hr] at h; simp at h
      subst h
      match j with
      | 0 => simp at hj
      | j + 1 => exact ih r hr j fs' hj
    | .str s =>
      unfold stampDates at h
      rcases hr : stampDates now rest with er | r
      · rw [hr] at h; simp at h
      rw [hr] at h; simp at h
      subst h
      match j with
      | 0 => simp at hj
      | j + 1 => exact ih r hr j fs' hj
    | .arr xs =>
      unfold stampDates at h
      rcases hr : stampDates now rest with er | r
      · rw [hr] at h; simp at h
      rw [hr] at h; simp at h
      subst h
      match j with
      | 0 => simp at hj
      | j + 1 => exact ih r hr j fs' hj

/-- Master decomposition for a successful call whose returned `result` value
is a list: its entries are the date-stamped parsed entries after validation
and positional reconciliation. -/
theorem rec_success_arr (env : RecEnv) (uml scan : List (String × JVal))
    (n : Nat) (msgs : List Msg) (k : Nat) (out : JVal) (msgs' : List Msg) (k' : Nat)
    (outF : List (String × JVal)) (outs : List JVal)
    (h : generateRecLoop env uml scan n msgs k = (some out, msgs', k'))
    (hout : out = .obj outF)
    (hres : getKey? outF "result" = some (.arr outs)) :
    ∃ entries, checkEntries entries = .ok true ∧
      reconcileEntries scan 0 entries = .ok outs ∧
      ∃ entries0, stampDates env.now entries0 = .ok entries := by
  obtain ⟨msgs0, k0, rsf, hget, hval⟩ := genRecLoop_success env uml scan n msgs k out msgs' k' h
  obtain ⟨X, hX, hXcase⟩ := getRec_result env uml scan msgs0 k0 rsf msgs' k' hget
  obtain ⟨entries, entries', hck, hre, hcase⟩ := validate_success scan rsf out hval
  rcases hcase with ⟨xs, hxs, hexs, hobj⟩ | ⟨hnarr, hobj⟩
  · -- the result value is a list
    rw [hout] at hobj
    have hF : outF = setKey rsf "result" (.arr entries') := by injection hobj
    rw [hF, getKey?_setKey_self] at hres
    have hes : entries' = outs := by
      have h1 := Option.some_inj.mp hres
      injection h1
    subst hes
    subst hexs
    rw [hX, Option.getD_some] at hxs
    rcases hXcase with ⟨e0, e1, hst, hXe⟩ | hXn
    · refine ⟨entries, hck, hre, e0, ?_⟩
      rw [hXe] at hxs
      have he1 : e1 = entries := by injection hxs
      rw [hst, he1]
    · exact absurd hxs (hXn entries)
  · -- the result value is not a list, so it cannot be the list of outputs
    exfalso
    rw [hout] at hobj
    have hF : outF = setKey rsf "result" ((getKey? rsf "result").getD (.arr [])) := by
      injection hobj
    rw [hF, getKey?_setKey_self] at hres
    exact hnarr outs (Option.some_inj.mp hres)

/-- An attempt whose summary passed to validation has a list `result` with an
entry (a dict) missing a required key can never pass validation. -/
theorem validate_missing_key (scan rsf : List (String × JVal)) (outs : List JVal)
    (e : JVal) (efs : List (String × JVal)) (key : String)
    (hres : getKey? rsf "result" = some (.arr outs)) (he : e ∈ outs)
    (hee : e = .obj efs) (hk : key ∈ requiredKeys) (hmiss : hasKey efs key = false) :
    ∀ out, validateAndReconcile scan rsf ≠ .ok (some out) := by
  intro out hcon
  obtain ⟨entries, entries', hck, hre, hcase⟩ := validate_success scan rsf out hcon
  rcases hcase with ⟨xs, hxs, hexs, _⟩ | ⟨hnarr, _⟩
  · rw [hres, Option.getD_some] at hxs
    have hxo : xs = outs := by injection hxs.symm
    subst hexs; subst hxo
    have := checkEntries_true entries hck e he key hk
    rw [hee] at this
    simp [pyContains, hmiss] at this
  · exact hnarr outs (by rw [hres, Option.getD_some])

/-- A returned-but-invalid summary consumes exactly one retry: the loop
continues with the transcript and call counter the failed attempt left. -/
theorem genRecLoop_step (env : RecEnv) (uml scan : List (String × JVal))
    (n : Nat) (msgs : List Msg) (k : Nat) (rsf : List (String × JVal))
    (msgs1 : List Msg) (k1 : Nat)
    (hget : getRecommendations env uml scan msgs k = (.ok (some rsf), msgs1, k1))
    (hfail : ∀ out, validateAndReconcile scan rsf ≠ .ok (some out)) :
    generateRecLoop env uml scan (n + 1) msgs k = generateRecLoop env uml scan n msgs1 k1 := by
  conv_lhs => rw [generateRecLoop]
  rw [hget]
  dsimp only
  rcases hv : validateAndReconcile scan rsf with e | o
  · rfl
  · match o with
    | none => rfl
    | some out => exact absurd hv (hfail out)

/-- The ids carried by the entries of the `result` list of a returned summary
(entries that are dicts with an `id` key). -/
def resultIds (v : JVal) : List JVal :=
  match v with
  | .obj fs =>
    match getKey? fs "result" with
    | some (.arr es) =>
      es.filterMap fun e =>
        match e with
        | .obj efs => getKey? efs "id"
        | _ => none
    | _ => []
  | _ => []

/-- The ids carried by the entries of a scan result's `result` list. -/
def scanIds (scan : List (String × JVal)) : List JVal :=
  match getKey? scan "result" with
  | some (.arr es) =>
    es.filterMap fun e =>
      match e with
      | .obj efs => getKey? efs "id"
      | _ => none
  | _ => []

/-! ## Claim C1 -/

/-- Scan result of the C1 counterexample run: two entries `n1`, `n2`. -/
def c1Scan : List (String × JVal) :=
  [("analysisType", .str "vulnerability"),
   ("result", .arr [
     .obj [("id", .str "n1"), ("name", .str "Auth")],
     .obj [("id", .str "n2"), ("name", .str "DB")]])]

/-- The model response of the C1 counterexample run: a single valid entry. -/
def c1Text : String :=
  "[\x7b\"name\": \"Auth\", \"recommendation\": true, \"recommendationSummary\": \"s\"\x7d]"

/-- The JSON value `json.loads` yields on `c1Text`. -/
def c1Parsed : JVal :=
  .arr [.obj [("name", .str "Auth"), ("recommendation", .bool true),
              ("recommendationSummary", .str "s")]]

/-- Environment of the C1 counterexample run. -/
def c1Env : RecEnv :=
  { llm := fun _ => .ok ⟨c1Text, 1, 2⟩
    jparse := fun s => if s = c1Text then some c1Parsed else none
    pyStr := fun _ => "S"
    now := "NOW" }

set_option maxRecDepth 4000 in
/-- C1, counterexample: a `generateRecommendations` call succeeds although the
model returned fewer entries than the scan-result list has — the reconciliation
loop never checks lengths, so the output id sequence `["n1"]` is strictly
shorter than the input id sequence `["n1", "n2"]` and the claimed pointwise
equality of equal-length sequences fails. -/
theorem recs_c1_counterexample :
    ∃ out, (generateRecommendations c1Env [] c1Scan 5 [⟨"system", "sp"⟩] 0).1 = some out ∧
      resultIds out = [.str "n1"] ∧
      scanIds c1Scan = [.str "n1", .str "n2"] ∧
      (resultIds out).length ≠ (scanIds c1Scan).length :=
  ⟨_, rfl, rfl, rfl, by decide⟩

/-- C1 (amended): in every successful `generateRecommendations` call whose
returned `result` value is a list, each output entry is a dict whose `id` is
exactly the `id` of the scan-result entry at the same position, and the output
list is at most as long as the scan-result list (the ids form a positional
prefix; equal length is not enforced when the model returns fewer entries). -/
theorem recs_c1_amended (env : RecEnv) (uml scan : List (String × JVal))
    (retries : Nat) (msgs : List Msg) (k : Nat) (out : JVal) (msgs' : List Msg)
    (k' : Nat) (outF : List (String × JVal)) (outs scanEntries : List JVal)
    (h : generateRecommendations env uml scan retries msgs k = (some out, msgs', k'))
    (hout : out = .obj outF)
    (hres : getKey? outF "result" = some (.arr outs))
    (hscan : getKey? scan "result" = some (.arr scanEntries)) :
    outs.length ≤ scanEntries.length ∧
    ∀ i e, outs.get? i = some e →
      ∃ efs idv se, e = .obj efs ∧ getKey? efs "id" = some idv ∧
        scanEntries.get? i = some se ∧ pyGetItemStr se "id" = .ok idv := by
  obtain ⟨entries, hck, hre, -⟩ :=
    rec_success_arr env uml scan retries msgs k out msgs' k' outF outs h hout hres
  obtain ⟨hlen, hidx⟩ := reconcileEntries_ok scan entries 0 outs hre
  have hmain : ∀ i e, outs.get? i = some e →
      ∃ efs idv se, e = .obj efs ∧ getKey? efs "id" = some idv ∧
        scanEntries.get? i = some se ∧ pyGetItemStr se "id" = .ok idv := by
    intro i e hi
    obtain ⟨fs, sr, se, idv, h1, h2, h3, h4, h5⟩ := hidx i e hi
    have hsr : sr = .arr scanEntries := by
      rw [hscan] at h2
      exact (Option.some_inj.mp h2).symm
    subst hsr
    have hse : scanEntries.get? i = some se := by
      simp only [pyGetItemNat, Nat.zero_add] at h3
      rcases hg : scanEntries.get? i with _ | x
      · rw [hg] at h3; cases h3
      · rw [hg] at h3
        simp at h3
        rw [← h3]
    exact ⟨setKey fs "id" idv, idv, se, h5, getKey?_setKey_self fs "id" idv, hse, h4⟩
  refine ⟨?_, hmain⟩
  by_cases h0 : outs.length = 0
  · simp [h0]
  · have hm : outs.length - 1 < outs.length := by omega
    obtain ⟨e, he⟩ : ∃ e, outs.get? (outs.length - 1) = some e := by
      rw [List.get?_eq_get hm]
      exact ⟨_, rfl⟩
    obtain ⟨efs, idv, se, -, -, hse, -⟩ := hmain (outs.length - 1) e he
    have := (List.get?_eq_some.mp hse).1
    omega

set_option maxRecDepth 4000 in
/-- C1 witness: the amended theorem applied to the concrete counterexample
run (one returned entry, two scan entries). -/
theorem recs_c1_amended_witness :
    (([JVal.obj [("name", .str "Auth"), ("recommendation", .bool true),
        ("recommendationSummary", .str "s"), ("recommendationDate", .str "NOW"),
        ("id", .str "n1")]] : List JVal).length ≤
      ([JVal.obj [("id", .str "n1"), ("name", .str "Auth")],
        JVal.obj [("id", .str "n2"), ("name", .str "DB")]] : List JVal).length) ∧
    (∀ i e, ([JVal.obj [("name", .str "Auth"), ("recommendation", .bool true),
        ("recommendationSummary", .str "s"), ("recommendationDate", .str "NOW"),
        ("id", .str "n1")]] : List JVal).get? i = some e →
      ∃ efs idv se, e = .obj efs ∧ getKey? efs "id" = some idv ∧
        ([JVal.obj [("id", .str "n1"), ("name", .str "Auth")],
          JVal.obj [("id", .str "n2"), ("name", .str "DB")]] : List JVal).get? i = some se ∧
        pyGetItemStr se "id" = .ok idv) :=
  recs_c1_amended c1Env [] c1Scan 5 [⟨"system", "sp"⟩] 0 _ _ _ _ _ _ rfl rfl rfl rfl

/-! ## Claim C2 -/

/-- C2: required-key validation. Part one: every entry of the `result` list of
a successful call carries all four required keys
(`name`, `recommendation`, `recommendationSummary`, `recommendationDate`).
Part two: an attempt whose parsed summary has an entry missing a required key
is treated as failed — nothing of that attempt is returned and the retry loop
continues with one retry consumed (on the state the failed attempt left). -/
theorem recs_c2_required_keys (env : RecEnv) (uml scan : List (String × JVal)) :
    (∀ retries msgs k out msgs' k' outF outs,
      generateRecommendations env uml scan retries msgs k = (some out, msgs', k') →
      out = .obj outF →
      getKey? outF "result" = some (.arr outs) →
      ∀ e ∈ outs, ∃ efs, e = .obj efs ∧ ∀ key ∈ requiredKeys, hasKey efs key = true) ∧
    (∀ n msgs k rsf msgs1 k1 outs e efs key,
      getRecommendations env uml scan msgs k = (.ok (some rsf), msgs1, k1) →
      getKey? rsf "result" = some (.arr outs) →
      e ∈ outs → e = .obj efs → key ∈ requiredKeys → hasKey efs key = false →
      generateRecommendations env uml scan (n + 1) msgs k =
        generateRecommendations env uml scan n msgs1 k1) := by
  constructor
  · intro retries msgs k out msgs' k' outF outs h hout hres e he
    obtain ⟨entries, hck, hre, -⟩ :=
      rec_success_arr env uml scan retries msgs k out msgs' k' outF outs h hout hres
    obtain ⟨-, hidx⟩ := reconcileEntries_ok scan entries 0 outs hre
    obtain ⟨i, hi⟩ := List.mem_iff_get?.mp he
    obtain ⟨fs, sr, se, idv, h1, h2, h3, h4, h5⟩ := hidx i e hi
    refine ⟨setKey fs "id" idv, h5, ?_⟩
    intro key hk
    have honk := checkEntries_true entries hck (.obj fs) (List.get?_mem h1) key hk
    simp [pyContains] at honk
    have hne : "id" ≠ key := by
      simp [requiredKeys] at hk
      rcases hk with rfl | rfl | rfl | rfl <;> decide
    rw [hasKey_setKey_ne fs "id" key idv hne]
    exact honk
  · intro n msgs k rsf msgs1 k1 outs e efs key hget hres he hee hk hmiss
    exact genRecLoop_step env uml scan n msgs k rsf msgs1 k1 hget
      (validate_missing_key scan rsf outs e efs key hres he hee hk hmiss)

/-- Scan result used by the C2 witness runs. -/
def c2Scan : List (String × JVal) :=
  [("analysisType", .str "security"),
   ("result", .arr [.obj [("id", .str "s1"), ("name", .str "Svc")]])]

/-- Response of the C2 witness success run (all four keys present). -/
def c2TextOk : String :=
  "[\x7b\"name\": \"Svc\", \"recommendation\": false, \"recommendationSummary\": \"ok\", \"recommendationDate\": \"d0\"\x7d]"

/-- Parsed value of `c2TextOk`. -/
def c2ParsedOk : JVal :=
  .arr [.obj [("name", .str "Svc"), ("recommendation", .bool false),
              ("recommendationSummary", .str "ok"), ("recommendationDate", .str "d0")]]

/-- Environment of the C2 witness success run. -/
def c2EnvOk : RecEnv :=
  { llm := fun _ => .ok ⟨c2TextOk, 1, 1⟩
    jparse := fun s => if s = c2TextOk then some c2ParsedOk else none
    pyStr := fun _ => "S"
    now := "NOW2" }

/-- Response of the C2 witness failure run (`recommendationSummary` missing). -/
def c2TextBad : String :=
  "[\x7b\"name\": \"Svc\", \"recommendation\": false, \"recommendationDate\": \"d0\"\x7d]"

/-- Parsed value of `c2TextBad`. -/
def c2ParsedBad : JVal :=
  .arr [.obj [("name", .str "Svc"), ("recommendation", .bool false),
              ("recommendationDate", .str "d0")]]

/-- Environment of the C2 witness failure run. -/
def c2EnvBad : RecEnv :=
  { llm := fun _ => .ok ⟨c2TextBad, 1, 1⟩
    jparse := fun s => if s = c2TextBad then some c2ParsedBad else none
    pyStr := fun _ => "S"
    now := "NOW2" }

set_option maxRecDepth 4000 in
/-- C2 witness: part one applied to a concrete successful run, part two
applied to a concrete run whose single entry misses `recommendationSummary`. -/
theorem recs_c2_witness :
    (∀ e ∈ ([JVal.obj [("name", .str "Svc"), ("recommendation", .bool false),
        ("recommendationSummary", .str "ok"), ("recommendationDate", .str "d0"),
        ("id", .str "s1")]] : List JVal),
      ∃ efs, e = .obj efs ∧ ∀ key ∈ requiredKeys, hasKey efs key = true) ∧
    (generateRecommendations c2EnvBad [] c2Scan 3 [⟨"system", "sp"⟩] 0 =
      generateRecommendations c2EnvBad [] c2Scan 2
        [⟨"system", "sp"⟩,
         ⟨"user", recPrependMsg none none (some "S")⟩] 1) :=
  ⟨(recs_c2_required_keys c2EnvOk [] c2Scan).1 5 [⟨"system", "sp"⟩] 0 _ _ _ _ _ rfl rfl rfl,
   (recs_c2_required_keys c2EnvBad [] c2Scan).2 2 [⟨"system", "sp"⟩] 0 _ _ _ _
     (.obj [("name", .str "Svc"), ("recommendation", .bool false),
            ("recommendationDate", .str "d0")])
     [("name", .str "Svc"), ("recommendation", .bool false),
      ("recommendationDate", .str "d0")]
     "recommendationSummary" rfl rfl (List.Mem.head _) rfl (by simp [requiredKeys]) rfl⟩

/-! ## Claim C3 -/

/-- Scan result of the spec's example scenario. -/
def c3Scan : List (String × JVal) :=
  [("analysisType", .str "vulnerability"),
   ("result", .arr [
     .obj [("id", .str "n1"), ("name", .str "Auth")],
     .obj [("id", .str "n2"), ("name", .str "DB")]])]

/-- The spec example's model response (no `recommendationDate` fields). -/
def c3Text : String :=
  "[\x7b\"name\": \"Auth\", \"recommendation\": true, \"recommendationSummary\": \"s\"\x7d, \x7b\"name\": \"DB\", \"recommendation\": false, \"recommendationSummary\": \"No recommendations needed.\"\x7d]"

/-- Parsed value of `c3Text`. -/
def c3Parsed : JVal :=
  .arr [
    .obj [("name", .str "Auth"), ("recommendation", .bool true),
          ("recommendationSummary", .str "s")],
    .obj [("name", .str "DB"), ("recommendation", .bool false),
          ("recommendationSummary", .str "No recommendations needed.")]]

/-- Environment of the spec example run. -/
def c3Env : RecEnv :=
  { llm := fun _ => .ok ⟨c3Text, 10, 20⟩
    jparse := fun s => if s = c3Text then some c3Parsed else none
    pyStr := fun _ => "S"
    now := "NOW3" }

/-- The same response with a `recommendationDate` on both entries. -/
def c3TextD : String :=
  "[\x7b\"name\": \"Auth\", \"recommendation\": true, \"recommendationSummary\": \"s\", \"recommendationDate\": \"md1\"\x7d, \x7b\"name\": \"DB\", \"recommendation\": false, \"recommendationSummary\": \"No recommendations needed.\", \"recommendationDate\": \"md2\"\x7d]"

/-- Parsed value of `c3TextD`. -/
def c3ParsedD : JVal :=
  .arr [
    .obj [("name", .str "Auth"), ("recommendation", .bool true),
          ("recommendationSummary", .str "s"), ("recommendationDate", .str "md1")],
    .obj [("name", .str "DB"), ("recommendation", .bool false),
          ("recommendationSummary", .str "No recommendations needed."),
          ("recommendationDate", .str "md2")]]

/-- Environment of the date-carrying variant of the spec example run. -/
def c3EnvD : RecEnv :=
  { llm := fun _ => .ok ⟨c3TextD, 10, 20⟩
    jparse := fun s => if s = c3TextD then some c3ParsedD else none
    pyStr := fun _ => "S"
    now := "NOW3" }

set_option maxRecDepth 8000 in
/-- C3, counterexample: on the spec's example scenario the attempt does NOT
succeed — the stamping step adds `recommendationDate` only to the first entry
(`recommendation = true`), the validation set `requiredKeys` nevertheless
demands `recommendationDate` on every entry, so the second entry fails the
check, every retry fails the same way, and the call returns an absent result
instead of the claimed ids `n1`, `n2`. -/
theorem recs_c3_counterexample :
    (generateRecommendations c3Env [] c3Scan 5 [⟨"system", "sp"⟩] 0).1 = none := by
  rfl

set_option maxRecDepth 8000 in
/-- C3 (amended): the spec example's run fails validation (the
`recommendation = false` entry carries no `recommendationDate`, which is a
required key) and the call yields an absent result; when the model response
additionally carries a `recommendationDate` on every entry, the call succeeds
on the first attempt and yields final ids `n1` and `n2` in that order, the
first entry's date restamped with the current timestamp and the second
keeping the model-supplied value. -/
theorem recs_c3_amended :
    (generateRecommendations c3Env [] c3Scan 5 [⟨"system", "sp"⟩] 0).1 = none ∧
    (generateRecommendations c3EnvD [] c3Scan 5 [⟨"system", "sp"⟩] 0).1 =
      some (.obj [
        ("result", .arr [
          .obj [("name", .str "Auth"), ("recommendation", .bool true),
                ("recommendationSummary", .str "s"),
                ("recommendationDate", .str "NOW3"), ("id", .str "n1")],
          .obj [("name", .str "DB"), ("recommendation", .bool false),
                ("recommendationSummary", .str "No recommendations needed."),
                ("recommendationDate", .str "md2"), ("id", .str "n2")]]),
        ("promptTokens", .num 10), ("completionTokens", .num 20)]) := by
  constructor
  · rfl
  · rfl

/-! ## Claim C4 -/

/-- Scan result of the C4 runs. -/
def c4Scan : List (String × JVal) :=
  [("analysisType", .str "vulnerability"),
   ("result", .arr [
     .obj [("id", .str "v1"), ("name", .str "A")],
     .obj [("id", .str "v2"), ("name", .str "B")]])]

/-- Model response of the C4 runs: one `recommendation = true` entry and one
`recommendation = false` entry, both carrying a model-supplied date. -/
def c4Text : String :=
  "[\x7b\"name\": \"A\", \"recommendation\": true, \"recommendationSummary\": \"a\", \"recommendationDate\": \"ma\"\x7d, \x7b\"name\": \"B\", \"recommendation\": false, \"recommendationSummary\": \"b\", \"recommendationDate\": \"mb\"\x7d]"

/-- Parsed value of `c4Text`. -/
def c4Parsed : JVal :=
  .arr [
    .obj [("name", .str "A"), ("recommendation", .bool true),
          ("recommendationSummary", .str "a"), ("recommendationDate", .str "ma")],
    .obj [("name", .str "B"), ("recommendation", .bool false),
          ("recommendationSummary", .str "b"), ("recommendationDate", .str "mb")]]

/-- Environment of the C4 runs. -/
def c4Env : RecEnv :=
  { llm := fun _ => .ok ⟨c4Text, 2, 3⟩
    jparse := fun s => if s = c4Text then some c4Parsed else none
    pyStr := fun _ => "S"
    now := "NOW4" }

set_option maxRecDepth 8000 in
/-- C4, counterexample: a successful `generateRecommendations` call whose
result contains an entry with `recommendation = false` that DOES carry a
`recommendationDate` (the model-supplied one) — required, in fact, because
validation demands the key on every entry. This refutes the claim that a
false entry never carries a date. -/
theorem recs_c4_counterexample :
    ∃ out, (generateRecommendations c4Env [] c4Scan 5 [⟨"system", "sp"⟩] 0).1 = some out ∧
      (match out with
       | .obj fs => getKey? fs "result"
       | _ => none) =
        some (.arr [
          .obj [("name", .str "A"), ("recommendation", .bool true),
                ("recommendationSummary", .str "a"),
                ("recommendationDate", .str "NOW4"), ("id", .str "v1")],
          .obj [("name", .str "B"), ("recommendation", .bool false),
                ("recommendationSummary", .str "b"),
                ("recommendationDate", .str "mb"), ("id", .str "v2")]]) ∧
      getKey? [("name", JVal.str "B"), ("recommendation", .bool false),
               ("recommendationSummary", .str "b"),
               ("recommendationDate", .str "mb"), ("id", .str "v2")]
          "recommendation" = some (.bool false) ∧
      hasKey [("name", JVal.str "B"), ("recommendation", .bool false),
              ("recommendationSummary", .str "b"),
              ("recommendationDate", .str "mb"), ("id", .str "v2")]
          "recommendationDate" = true :=
  ⟨_, rfl, rfl, rfl, rfl⟩

/-- C4 (amended): in every successful `generateRecommendations` call whose
result value is a list, every entry is a dict carrying a `recommendationDate`
key (validation requires it on false entries too, so those keep a
model-supplied date), and every entry whose `recommendation` value is truthy
has its `recommendationDate` equal to the current timestamp stamped by the
agent. -/
theorem recs_c4_amended (env : RecEnv) (uml scan : List (String × JVal))
    (retries : Nat) (msgs : List Msg) (k : Nat) (out : JVal) (msgs' : List Msg)
    (k' : Nat) (outF : List (String × JVal)) (outs : List JVal)
    (h : generateRecommendations env uml scan retries msgs k = (some out, msgs', k'))
    (hout : out = .obj outF)
    (hres : getKey? outF "result" = some (.arr outs)) :
    ∀ e ∈ outs, ∃ efs, e = .obj efs ∧
      hasKey efs "recommendationDate" = true ∧
      ∃ rv, getKey? efs "recommendation" = some rv ∧
        (truthy rv = true → getKey? efs "recommendationDate" = some (.str env.now)) := by
  obtain ⟨entries, hck, hre, entries0, hst⟩ :=
    rec_success_arr env uml scan retries msgs k out msgs' k' outF outs h hout hres
  obtain ⟨-, hidx⟩ := reconcileEntries_ok scan entries 0 outs hre
  intro e he
  obtain ⟨i, hi⟩ := List.mem_iff_get?.mp he
  obtain ⟨fs, sr, se, idv, h1, h2, h3, h4, h5⟩ := hidx i e hi
  have hkey := checkEntries_true entries hck (.obj fs) (List.get?_mem h1)
    "recommendationDate" (by simp [requiredKeys])
  simp [pyContains] at hkey
  obtain ⟨rv, hrv, hdate⟩ := stampDates_ok env.now entries0 entries hst i fs h1
  refine ⟨setKey fs "id" idv, h5, ?_, rv, ?_, ?_⟩
  · rw [hasKey_setKey_ne fs "id" "recommendationDate" idv (by decide)]
    exact hkey
  · rw [getKey?_setKey_ne fs "id" "recommendation" idv (by decide)]
    exact hrv
  · intro ht
    rw [getKey?_setKey_ne fs "id" "recommendationDate" idv (by decide)]
    exact hdate ht

set_option maxRecDepth 8000 in
/-- C4 witness: the amended theorem applied to the concrete C4 run, at its
`recommendation = false` entry, which carries the model-supplied date. -/
theorem recs_c4_amended_witness :
    ∃ efs, (JVal.obj [("name", .str "B"), ("recommendation", .bool false),
        ("recommendationSummary", .str "b"), ("recommendationDate", .str "mb"),
        ("id", .str "v2")]) = .obj efs ∧
      hasKey efs "recommendationDate" = true ∧
      ∃ rv, getKey? efs "recommendation" = some rv ∧
        (truthy rv = true → getKey? efs "recommendationDate" = some (.str "NOW4")) :=
  recs_c4_amended c4Env [] c4Scan 5 [⟨"system", "sp"⟩] 0 _ _ _ _ _ rfl rfl rfl
    (JVal.obj [("name", .str "B"), ("recommendation", .bool false),
        ("recommendationSummary", .str "b"), ("recommendationDate", .str "mb"),
        ("id", .str "v2")])
    (List.Mem.tail _ (List.Mem.head _))

/-! ## Claim C5 -/

/-- Invariant of the continuation loop, proved for an arbitrary fuel bound so
that the call-count bound rests on the loop guard `it ≤ mi`, not on the fuel:
the call counter grows by at most `mi + 1 - it`, and on a normal exit the
buffer extends the incoming buffer by the concatenation, in order, of the
response texts of exactly the calls the loop made. -/
theorem umlLoop_calls_concat (llm : Nat → Except Unit Completion) (mi : Nat) :
    ∀ fuel it msgs buf tp tc k,
      k ≤ (umlLoop llm mi fuel it msgs buf tp tc k).2.2 ∧
      (umlLoop llm mi fuel it msgs buf tp tc k).2.2 - k ≤ mi + 1 - it ∧
      (1 ≤ it → ∀ b t2 c2 msgs' k',
        umlLoop llm mi fuel it msgs buf tp tc k = (some (b, t2, c2), msgs', k') →
        b = buf ++ concatTexts llm k (k' - k)) := by
  intro fuel
  induction fuel with
  | zero =>
    intro it msgs buf tp tc k
    refine ⟨le_refl k, by simp [umlLoop], ?_⟩
    intro hit b t2 c2 msgs' k' h
    simp [umlLoop, Prod.ext_iff] at h
    rw [← h.2.2, Nat.sub_self]
    rw [← h.1.1]
    exact (String.append_empty buf).symm
  | succ fuel ih =>
    intro it msgs buf tp tc k
    by_cases hguard : it ≤ mi
    · rcases hc : llm k with e | c
      · -- transport failure: the attempt aborts after this one call
        refine ⟨?_, ?_, ?_⟩
        · simp [umlLoop, hguard, hc]
        · simp [umlLoop, hguard, hc]
          omega
        · intro hit b t2 c2 msgs' k' h
          simp [umlLoop, hguard, hc, Prod.ext_iff] at h
      · by_cases hstop : c.stopReason = "stop"
        · refine ⟨?_, ?_, ?_⟩
          · simp [umlLoop, hguard, hc, hstop]
          · simp [umlLoop, hguard, hc, hstop]
            omega
          · intro hit b t2 c2 msgs' k' h
            simp [umlLoop, hguard, hc, hstop, Prod.ext_iff] at h
            have hit0 : ¬ (it = 0) := by omega
            rw [if_neg hit0] at h
            rw [← h.2.2, ← h.1.1]
            have hone : k + 1 - k = 1 := by omega
            rw [hone]
            simp [concatTexts, hc, String.append_empty]
        · by_cases hover : it + 1 > mi
          · refine ⟨?_, ?_, ?_⟩
            · simp [umlLoop, hguard, hc, hstop, hover]
            · simp [umlLoop, hguard, hc, hstop, hover]
              omega
            · intro hit b t2 c2 msgs' k' h
              simp [umlLoop, hguard, hc, hstop, hover, Prod.ext_iff] at h
              have hit0 : ¬ (it = 0) := by omega
              rw [if_neg hit0] at h
              rw [← h.2.2, ← h.1.1]
              have hone : k + 1 - k = 1 := by omega
              rw [hone]
              simp [concatTexts, hc, String.append_empty]
          · -- continuation: one more call, then the loop goes on
            have hrec : umlLoop llm mi (fuel + 1) it msgs buf tp tc k =
                umlLoop llm mi fuel (it + 1)
                  ((msgs ++ [⟨"assistant", c.text⟩]) ++ [⟨"user", contMsg c.text⟩])
                  (if it + 1 = 1 then c.text else buf ++ c.text)
                  (tp + c.promptTokens) (tc + c.completionTokens) (k + 1) := by
              simp [umlLoop, hguard, hc, hstop, hover]
            obtain ⟨ih1, ih2, ih3⟩ := ih (it + 1)
              ((msgs ++ [⟨"assistant", c.text⟩]) ++ [⟨"user", contMsg c.text⟩])
              (if it + 1 = 1 then c.text else buf ++ c.text)
              (tp + c.promptTokens) (tc + c.completionTokens) (k + 1)
            refine ⟨?_, ?_, ?_⟩
            · rw [hrec]; omega
            · rw [hrec]; omega
            · intro hit b t2 c2 msgs' k' h
              rw [hrec] at h
              have hb := ih3 (by omega) b t2 c2 msgs' k' h
              have hk1 : k + 1 ≤ k' := by
                have hle := ih1
                rw [h] at hle
                simpa using hle
              have hit1 : ¬ (it + 1 = 1) := by omega
              rw [if_neg hit1] at hb
              rw [String.append_assoc] at hb
              rw [hb]
              congr 1
              have hsucc : k' - k = (k' - (k + 1)) + 1 := by omega
              rw [hsucc]
              show c.text ++ concatTexts llm (k + 1) (k' - (k + 1)) =
                concatTexts llm k (k' - (k + 1) + 1)
              simp [concatTexts, hc]
    · refine ⟨by simp [umlLoop, hguard], by simp [umlLoop, hguard], ?_⟩
      intro hit b t2 c2 msgs' k' h
      simp [umlLoop, hguard, Prod.ext_iff] at h
      rw [← h.2.2, Nat.sub_self, ← h.1.1]
      exact (String.append_empty buf).symm

/-- C5: for every `FileToUMLAgent.generate` call, the continuation loop of
`__extractUMLContent` (entered at `diagramIteration = 0` with an empty buffer)
issues at most `maxIterations + 1` completion calls regardless of the
`stopReason` values returned, and when it exits normally the accumulated
buffer equals the ordered concatenation of the per-iteration response texts.
Stated for an arbitrary fuel bound, so the call-count bound is enforced by the
loop guard alone. -/
theorem uml_c5_loop_bound_concat (llm : Nat → Except Unit Completion)
    (mi fuel : Nat) (msgs : List Msg) (k : Nat) :
    ((umlLoop llm mi fuel 0 msgs "" 0 0 k).2.2 - k ≤ mi + 1) ∧
    (∀ b tp tc msgs' k',
      umlLoop llm mi fuel 0 msgs "" 0 0 k = (some (b, tp, tc), msgs', k') →
      b = concatTexts llm k (k' - k)) := by
  constructor
  · have hh := (umlLoop_calls_concat llm mi fuel 0 msgs "" 0 0 k).2.1
    simpa using hh
  · intro b tp tc msgs' k' h
    match fuel with
    | 0 =>
      simp [umlLoop, Prod.ext_iff] at h
      rw [← h.2.2, Nat.sub_self, ← h.1.1]
      rfl
    | fuel + 1 =>
      rcases hc : llm k with e | c
      · simp [umlLoop, hc, Prod.ext_iff] at h
      · by_cases hstop : c.stopReason = "stop"
        · simp [umlLoop, hc, hstop, Prod.ext_iff] at h
          rw [← h.2.2, ← h.1.1]
          have hone : k + 1 - k = 1 := by omega
          rw [hone]
          simp [concatTexts, hc, String.append_empty]
        · by_cases hover : 0 + 1 > mi
          · simp [umlLoop, hc, hstop, hover, Prod.ext_iff] at h
            rw [← h.2.2, ← h.1.1]
            have hone : k + 1 - k = 1 := by omega
            rw [hone]
            simp [concatTexts, hc, String.append_empty]
          · have hrec : umlLoop llm mi (fuel + 1) 0 msgs "" 0 0 k =
                umlLoop llm mi fuel 1
                  ((msgs ++ [⟨"assistant", c.text⟩]) ++ [⟨"user", contMsg c.text⟩])
                  c.text (0 + c.promptTokens) (0 + c.completionTokens) (k + 1) := by
              simp [umlLoop, hc, hstop, hover]
            rw [hrec] at h
            obtain ⟨ih1, -, ih3⟩ := umlLoop_calls_concat llm mi fuel 1
              ((msgs ++ [⟨"assistant", c.text⟩]) ++ [⟨"user", contMsg c.text⟩])
              c.text (0 + c.promptTokens) (0 + c.completionTokens) (k + 1)
            have hb := ih3 (by omega) b tp tc msgs' k' h
            have hk1 : k + 1 ≤ k' := by
              rw [h] at ih1
              simpa using ih1
            rw [hb]
            have hsucc : k' - k = (k' - (k + 1)) + 1 := by omega
            rw [hsucc]
            simp [concatTexts, hc]

/-- The completion service of the C5 witness run: first call truncated
(`stopReason = "length"`), second call complete. -/
def c5WitLLM : Nat → Except Unit Completion :=
  fun n => .ok ⟨if n = 0 then "AB" else "CD", 1, 1, if n = 0 then "length" else "stop"⟩

/-- C5 witness: a two-iteration run within the bound whose buffer is the
concatenation `"AB" ++ "CD"` of the two response texts. -/
theorem uml_c5_witness :
    ((umlLoop c5WitLLM 3 4 0 [] "" 0 0 0).2.2 - 0 ≤ 3 + 1) ∧
    "ABCD" = concatTexts c5WitLLM 0 ((umlLoop c5WitLLM 3 4 0 [] "" 0 0 0).2.2 - 0) :=
  ⟨(uml_c5_loop_bound_concat c5WitLLM 3 4 [] 0).1,
   (uml_c5_loop_bound_concat c5WitLLM 3 4 [] 0).2 "ABCD" 2 2 _ 2 rfl⟩

/-! ## Claim C9 -/

/-- The continuation loop only appends turns to the transcript it receives. -/
theorem umlLoop_msgs_grow (llm : Nat → Except Unit Completion) (mi : Nat) :
    ∀ fuel it msgs buf tp tc k,
      ∃ t, (umlLoop llm mi fuel it msgs buf tp tc k).2.1 = msgs ++ t := by
  intro fuel
  induction fuel with
  | zero => intro it msgs buf tp tc k; exact ⟨[], by simp [umlLoop]⟩
  | succ fuel ih =>
    intro it msgs buf tp tc k
    by_cases hguard : it ≤ mi
    · rcases hc : llm k with e | c
      · exact ⟨[], by simp [umlLoop, hguard, hc]⟩
      · by_cases hstop : c.stopReason = "stop"
        · exact ⟨[⟨"assistant", c.text⟩], by simp [umlLoop, hguard, hc, hstop]⟩
        · by_cases hover : it + 1 > mi
          · exact ⟨[⟨"assistant", c.text⟩], by simp [umlLoop, hguard, hc, hstop, hover]⟩
          · obtain ⟨t, ht⟩ := ih (it + 1)
              ((msgs ++ [⟨"assistant", c.text⟩]) ++ [⟨"user", contMsg c.text⟩])
              (if it + 1 = 1 then c.text else buf ++ c.text)
              (tp + c.promptTokens) (tc + c.completionTokens) (k + 1)
            refine ⟨[⟨"assistant", c.text⟩] ++ [⟨"user", contMsg c.text⟩] ++ t, ?_⟩
            have hrec : umlLoop llm mi (fuel + 1) it msgs buf tp tc k =
                umlLoop llm mi fuel (it + 1)
                  ((msgs ++ [⟨"assistant", c.text⟩]) ++ [⟨"user", contMsg c.text⟩])
                  (if it + 1 = 1 then c.text else buf ++ c.text)
                  (tp + c.promptTokens) (tc + c.completionTokens) (k + 1) := by
              simp [umlLoop, hguard, hc, hstop, hover]
            rw [hrec, ht]
            simp
    · exact ⟨[], by simp [umlLoop, hguard]⟩

/-- One `__extractUMLContent` attempt strictly extends the transcript (at
least the user prepend turn is appended, whatever happens afterwards). -/
theorem extract_msgs_grow (env : UMLEnv) (path render : String) (mi : Nat)
    (msgs : List Msg) (k : Nat) :
    ∃ t, t ≠ [] ∧ (extractUMLContent env path render mi msgs k).2.1 = msgs ++ t := by
  obtain ⟨t, ht⟩ := umlLoop_msgs_grow env.llm mi (mi + 1) 0
    (msgs ++ [⟨"user", umlPrependMsg render⟩]) "" 0 0 k
  refine ⟨[⟨"user", umlPrependMsg render⟩] ++ t, by simp, ?_⟩
  unfold extractUMLContent
  dsimp only
  rcases hl : umlLoop env.llm mi (mi + 1) 0
      (msgs ++ [⟨"user", umlPrependMsg render⟩]) "" 0 0 k with ⟨res, msgs2, k2⟩
  rw [hl] at ht
  dsimp only at ht
  rw [hl]
  match res with
  | none =>
    dsimp only
    rw [ht]
    simp
  | some (buf, tp2, tc2) =>
    dsimp only
    split
    · rw [ht]; simp
    · split
      · rw [ht]; simp
      · rw [ht]; simp

/-- The retry loop of `generateUMLBlock` threads the transcript left by each
attempt into the next one. -/
theorem genUML_msgs_grow (env : UMLEnv) (path render : String) (mi : Nat) :
    ∀ n msgs k u, ∃ t, (generateUMLLoop env path render mi n msgs k u).2.1 = msgs ++ t := by
  intro n
  induction n with
  | zero => intro msgs k u; exact ⟨[], by simp [generateUMLLoop]⟩
  | succ n ih =>
    intro msgs k u
    rw [generateUMLLoop]
    rcases hext : extractUMLContent env path render mi msgs k with ⟨res, msgs1, k1⟩
    obtain ⟨t1, -, ht1⟩ := extract_msgs_grow env path render mi msgs k
    rw [hext] at ht1
    dsimp only at ht1
    match res with
    | .error e =>
      dsimp only
      obtain ⟨t2, ht2⟩ := ih msgs1 k1 u
      exact ⟨t1 ++ t2, by rw [ht2, ht1]; simp⟩
    | .ok none =>
      dsimp only
      obtain ⟨t2, ht2⟩ := ih msgs1 k1 u
      exact ⟨t1 ++ t2, by rw [ht2, ht1]; simp⟩
    | .ok (some v) =>
      dsimp only
      rcases uuidMapper env.uuids u v with ⟨mr, u1⟩
      match mr with
      | .error e =>
        dsimp only
        obtain ⟨t2, ht2⟩ := ih msgs1 k1 u1
        exact ⟨t1 ++ t2, by rw [ht2, ht1]; simp⟩
      | .ok v1 =>
        dsimp only
        exact ⟨t1, ht1⟩

/-- C9 (amended): `generateUMLBlock`'s retry attempts do NOT start from a
fresh system-only transcript. The transcript is the agent's `self.__messages`
state, never reset: a failed attempt hands the transcript it extended (its
user prepend turn, and any assistant/continuation turns) to the next attempt,
and every attempt strictly extends the transcript, so a later attempt's
transcript contains all turns of the failed earlier attempts. -/
theorem uml_c9_amended (env : UMLEnv) (path render : String) (mi : Nat) :
    (∀ n msgs k u msgs' k',
      extractUMLContent env path render mi msgs k = (.ok none, msgs', k') →
      generateUMLLoop env path render mi (n + 1) msgs k u =
        generateUMLLoop env path render mi n msgs' k' u) ∧
    (∀ msgs k, ∃ t, t ≠ [] ∧
      (extractUMLContent env path render mi msgs k).2.1 = msgs ++ t) ∧
    (∀ n msgs k u, ∃ t,
      (generateUMLLoop env path render mi n msgs k u).2.1 = msgs ++ t) := by
  refine ⟨?_, extract_msgs_grow env path render mi, genUML_msgs_grow env path render mi⟩
  intro n msgs k u msgs' k' hext
  conv_lhs => rw [generateUMLLoop]
  rw [hext]

/-- Environment of the C9 counterexample run: every completion succeeds with
a fence-less text, so extraction fails every attempt. -/
def c9Env : UMLEnv :=
  { llm := fun _ => .ok ⟨"hello", 1, 1, "stop"⟩
    jparse := fun _ => none
    uuids := fun _ => "u" }

/-- C9, counterexample: after a failed first attempt the transcript holds
three turns (system, the attempt's user prepend, its assistant reply), and
the second attempt of the same `generateUMLBlock` call starts from exactly
that transcript — not from the claimed fresh `[system]` transcript; the final
transcript of the two-attempt call interleaves both attempts' turns. -/
theorem uml_c9_counterexample :
    (extractUMLContent c9Env "p" "R" 0 [⟨"system", "sp"⟩] 0).2.1 =
      [⟨"system", "sp"⟩, ⟨"user", umlPrependMsg "R"⟩, ⟨"assistant", "hello"⟩] ∧
    (extractUMLContent c9Env "p" "R" 0 [⟨"system", "sp"⟩] 0).1 = .ok none ∧
    generateUMLLoop c9Env "p" "R" 0 2 [⟨"system", "sp"⟩] 0 0 =
      (none, [⟨"system", "sp"⟩, ⟨"user", umlPrependMsg "R"⟩, ⟨"assistant", "hello"⟩,
              ⟨"user", umlPrependMsg "R"⟩, ⟨"assistant", "hello"⟩], 2, 0) ∧
    ([⟨"system", "sp"⟩, ⟨"user", umlPrependMsg "R"⟩,
      (⟨"assistant", "hello"⟩ : Msg)].length ≠ [(⟨"system", "sp"⟩ : Msg)].length) :=
  ⟨rfl, rfl, rfl, by decide⟩

/-- C9 witness: the step equation of the amended theorem at the concrete
counterexample run — attempt two starts from the three-turn transcript
attempt one left behind. -/
theorem uml_c9_witness :
    generateUMLLoop c9Env "p" "R" 0 2 [⟨"system", "sp"⟩] 0 0 =
      generateUMLLoop c9Env "p" "R" 0 1
        [⟨"system", "sp"⟩, ⟨"user", umlPrependMsg "R"⟩, ⟨"assistant", "hello"⟩] 1 0 :=
  (uml_c9_amended c9Env "p" "R" 0).1 1 [⟨"system", "sp"⟩] 0 0 _ _ rfl

/-! ## Claim C8 -/

/-- Every possible `FileToUMLAgent` attempt fails, whatever state it starts
from: extraction aborts (transport/format/decode failure or an escaping
exception) or the extracted value dies in identifier remapping. -/
def umlAttemptFails (env : UMLEnv) (path render : String) (mi : Nat) : Prop :=
  ∀ msgs k u v msgs' k',
    extractUMLContent env path render mi msgs k = (.ok (some v), msgs', k') →
    ∀ v', (uuidMapper env.uuids u v).1 ≠ .ok v'

/-- Every possible `RecommendationAgent` attempt fails, whatever state it
starts from: `__getRecommendations` yields nothing (or raises), or its summary
never passes validation and reconciliation. -/
def recAttemptFails (env : RecEnv) (uml scan : List (String × JVal)) : Prop :=
  ∀ msgs k rsf msgs' k',
    getRecommendations env uml scan msgs k = (.ok (some rsf), msgs', k') →
    ∀ out, validateAndReconcile scan rsf ≠ .ok (some out)

/-- C8: for both agents, when every attempt fails — any combination of
transport, format, decode or schema failures — the `generate` call returns an
absent result. The retry loops translate the source's catch-all
`except Exception` (no `Except.error` survives them), so the absent result is
the only terminal failure mode: no exception escapes to the caller. -/
theorem c8_exhaustion_absent :
    (∀ (env : UMLEnv) (path render : String) (mi : Nat),
      umlAttemptFails env path render mi →
      ∀ n msgs k u, (generateUMLLoop env path render mi n msgs k u).1 = none) ∧
    (∀ (env : RecEnv) (uml scan : List (String × JVal)),
      recAttemptFails env uml scan →
      ∀ n msgs k, (generateRecLoop env uml scan n msgs k).1 = none) := by
  constructor
  · intro env path render mi hfail n
    induction n with
    | zero => intro msgs k u; simp [generateUMLLoop]
    | succ n ih =>
      intro msgs k u
      rw [generateUMLLoop]
      rcases hext : extractUMLContent env path render mi msgs k with ⟨res, msgs1, k1⟩
      match res with
      | .error e => exact ih msgs1 k1 u
      | .ok none => exact ih msgs1 k1 u
      | .ok (some v) =>
        dsimp only
        rcases hm : uuidMapper env.uuids u v with ⟨mr, u1⟩
        match mr with
        | .error e => exact ih msgs1 k1 u1
        | .ok v' =>
          exact absurd (by rw [hm]) (hfail msgs k u v msgs1 k1 hext v')
  · intro env uml scan hfail n
    induction n with
    | zero => intro msgs k; simp [generateRecLoop]
    | succ n ih =>
      intro msgs k
      rw [generateRecLoop]
      rcases hget : getRecommendations env uml scan msgs k with ⟨res, msgs1, k1⟩
      match res with
      | .error e => exact ih msgs1 k1
      | .ok none => exact ih msgs1 k1
      | .ok (some rsf) =>
        dsimp only
        rcases hv : validateAndReconcile scan rsf with e | o
        · exact ih msgs1 k1
        · match o with
          | none => exact ih msgs1 k1
          | some out => exact absurd hv (hfail msgs k rsf msgs1 k1 hget out)

/-- Environment of the C8 witness: every completion call fails at transport
level, for the file-parsing agent. -/
def c8UmlEnv : UMLEnv :=
  { llm := fun _ => .error ()
    jparse := fun _ => none
    uuids := fun _ => "u" }

/-- Environment of the C8 witness, for the recommendation agent. -/
def c8RecEnv : RecEnv :=
  { llm := fun _ => .error ()
    jparse := fun _ => none
    pyStr := fun _ => "S"
    now := "N" }

/-- C8 witness: with a permanently failing transport, both `generate` calls
exhaust their retries and return an absent result. -/
theorem c8_witness :
    (generateUMLLoop c8UmlEnv "p" "R" 1 3 [] 0 0).1 = none ∧
    (generateRecLoop c8RecEnv [] [] 3 [] 0).1 = none := by
  constructor
  · refine c8_exhaustion_absent.1 c8UmlEnv "p" "R" 1 ?_ 3 [] 0 0
    intro msgs k u v msgs' k' hext
    simp [extractUMLContent, umlLoop, c8UmlEnv] at hext
  · refine c8_exhaustion_absent.2 c8RecEnv [] [] ?_ 3 [] 0
    intro msgs k rsf msgs' k' hget
    simp [getRecommendations, buildUmlStr, buildConnStr, buildScanStr, getKey?,
      c8RecEnv] at hget

/-! ## Claim C10 -/

/-- Stamping succeeds on a list of dicts, and yields the same dicts with
`filepath` overwritten. -/
theorem stampList_of_objs (path : String) :
    ∀ ns, (∀ e ∈ ns, ∃ efs, e = .obj efs) →
      ∃ ns', stampList path ns = .ok ns' ∧
        ns'.length = ns.length ∧
        ∀ j e', ns'.get? j = some e' →
          ∃ efs, ns.get? j = some (.obj efs) ∧
            e' = .obj (setKey efs "filepath" (.str path)) := by
  intro ns
  induction ns with
  | nil =>
    intro _
    exact ⟨[], rfl, rfl, by intro j e' hj; simp at hj⟩
  | cons e0 rest ih =>
    intro hobjs
    obtain ⟨efs0, he0⟩ := hobjs e0 (List.Mem.head _)
    obtain ⟨rest', hre, hlen, hrec⟩ := ih (fun e he => hobjs e (List.Mem.tail _ he))
    subst he0
    refine ⟨.obj (setKey efs0 "filepath" (.str path)) :: rest', ?_, by simp [hlen], ?_⟩
    · simp [stampList, hre]
    · intro j e' hj
      match j with
      | 0 =>
        have : some (JVal.obj (setKey efs0 "filepath" (.str path))) = some e' := hj
        exact ⟨efs0, rfl, (Option.some_inj.mp this).symm⟩
      | j + 1 => exact hrec j e' hj

/-- Remapping succeeds on a list of dicts that all carry a hashable `id`
value, and overwrites each `id` with the next fresh identifier in order. -/
theorem remapNodes_of_ids (uuids : Nat → String) :
    ∀ ns u, (∀ e ∈ ns, ∃ efs x, e = .obj efs ∧ getKey? efs "id" = some x ∧
        hashable x = true) →
      ∃ ns', remapNodes uuids u ns = (.ok ns', u + ns.length) ∧
        ns'.length = ns.length ∧
        ∀ j e', ns'.get? j = some e' →
          ∃ efs, ns.get? j = some (.obj efs) ∧
            e' = .obj (setKey efs "id" (.str (uuids (u + j)))) := by
  intro ns
  induction ns with
  | nil =>
    intro u _
    exact ⟨[], rfl, rfl, by intro j e' hj; simp at hj⟩
  | cons e0 rest ih =>
    intro u hids
    obtain ⟨efs0, x0, he0, hx, hh0⟩ := hids e0 (List.Mem.head _)
    obtain ⟨rest', hre, hlen, hrec⟩ := ih (u + 1) (fun e he => hids e (List.Mem.tail _ he))
    subst he0
    refine ⟨.obj (setKey efs0 "id" (.str (uuids u))) :: rest', ?_, by simp [hlen], ?_⟩
    · simp only [remapNodes, hx, hh0, if_true, hre]
      have harith : u + 1 + rest.length = u + (rest.length + 1) := by omega
      simp [harith]
    · intro j e' hj
      match j with
      | 0 =>
        have : some (JVal.obj (setKey efs0 "id" (.str (uuids u)))) = some e' := hj
        refine ⟨efs0, rfl, ?_⟩
        rw [← Option.some_inj.mp this]
        simp
      | j + 1 =>
        obtain ⟨efs, h1, h2⟩ := hrec j e' hj
        refine ⟨efs, h1, ?_⟩
        have harith : u + 1 + j = u + (j + 1) := by omega
        rw [← harith]
        exact h2

/-- Remapping never succeeds on a node list one of whose entries is a dict
whose `id` value is unhashable: `uuidMapper[newBlock["id"]]` raises
`TypeError` at or before that entry. -/
theorem remapNodes_unhashable (uuids : Nat → String) :
    ∀ ns j efs x u, ns.get? j = some (.obj efs) →
      getKey? efs "id" = some x → hashable x = false →
      ∀ ns' u', remapNodes uuids u ns ≠ (.ok ns', u') := by
  intro ns
  induction ns with
  | nil =>
    intro j efs x u hj
    simp at hj
  | cons e0 rest ih =>
    intro j efs x u hj hid hh ns' u' hcontra
    match j with
    | 0 =>
      have he0 : e0 = .obj efs := Option.some_inj.mp hj
      subst he0
      unfold remapNodes at hcontra
      rw [hid] at hcontra
      dsimp only at hcontra
      rw [hh] at hcontra
      simp [Prod.ext_iff] at hcontra
    | j + 1 =>
      match e0 with
      | .obj efs0 =>
        unfold remapNodes at hcontra
        rcases hid0 : getKey? efs0 "id" with _ | x0
        · rw [hid0] at hcontra; simp [Prod.ext_iff] at hcontra
        rw [hid0] at hcontra; dsimp only at hcontra
        rcases hh0 : hashable x0 with _ | _
        · rw [hh0] at hcontra; simp [Prod.ext_iff] at hcontra
        rw [hh0, if_pos rfl] at hcontra
        rcases hre : remapNodes uuids (u + 1) rest with ⟨mr, u2⟩
        rw [hre] at hcontra
        match mr with
        | .error e => simp [Prod.ext_iff] at hcontra
        | .ok rest' => exact ih j efs x (u + 1) hj hid hh rest' u2 hre
      | .null => simp [remapNodes, Prod.ext_iff] at hcontra
      | .bool b => simp [remapNodes, Prod.ext_iff] at hcontra
      | .num m => simp [remapNodes, Prod.ext_iff] at hcontra
      | .str s2 => simp [remapNodes, Prod.ext_iff] at hcontra
      | .arr xs => simp [remapNodes, Prod.ext_iff] at hcontra

/-- C10 (amended): schema handling of the parsed fenced block in
`FileToUMLAgent.generate`. (1) A parsed object without a `connection` key
still succeeds (with a node list of dicts carrying hashable `id` values) and
the returned graph carries no `connection` key. (2) A parsed object without a
`node` key survives extraction (`.get("node", [])`) but the attempt dies in
`__uuidMapper` with the `KeyError` of `result["node"]`. (3) Beyond this, the
only further schema condition is hashability of the node ids: any object
whose `node` is a list of dicts whose `id` values are hashable and whose
`connection` value, when present, is iterable, completes extraction and
remapping. (4) An extracted value whose remapping raises consumes exactly one
retry of the loop. (5) The hashability condition is a real further check: a
node entry whose `id` value is a list or dict makes
`uuidMapper[newBlock["id"]] = str(uuid4())` raise `TypeError` (unhashable
dict key), and remapping never succeeds on that object. -/
theorem uml_c10_amended (path : String) (tp tc : Nat) (uuids : Nat → String) (u : Nat) :
    (∀ fields ns, getKey? fields "node" = some (.arr ns) →
      (∀ e ∈ ns, ∃ efs x, e = .obj efs ∧ getKey? efs "id" = some x ∧
        hashable x = true) →
      hasKey fields "connection" = false →
      ∃ v outF u', processParsed path tp tc (.obj fields) = .ok (some v) ∧
        uuidMapper uuids u v = (.ok (.obj outF), u') ∧
        hasKey outF "connection" = false) ∧
    (∀ fields, hasKey fields "node" = false →
      iterOK ((getKey? fields "connection").getD (.arr [])) = true →
      ∃ v, processParsed path tp tc (.obj fields) = .ok (some v) ∧
        (uuidMapper uuids u v).1 = .error .keyError) ∧
    (∀ fields ns, getKey? fields "node" = some (.arr ns) →
      (∀ e ∈ ns, ∃ efs x, e = .obj efs ∧ getKey? efs "id" = some x ∧
        hashable x = true) →
      iterOK ((getKey? fields "connection").getD (.arr [])) = true →
      ∃ v v' u', processParsed path tp tc (.obj fields) = .ok (some v) ∧
        uuidMapper uuids u v = (.ok v', u')) ∧
    (∀ (env : UMLEnv) (render2 : String) (mi n : Nat) (msgs msgs' : List Msg)
        (kk k' uu : Nat) v e,
      extractUMLContent env path render2 mi msgs kk = (.ok (some v), msgs', k') →
      (uuidMapper env.uuids uu v).1 = .error e →
      generateUMLLoop env path render2 mi (n + 1) msgs kk uu =
        generateUMLLoop env path render2 mi n msgs' k' (uuidMapper env.uuids uu v).2) ∧
    (∀ fields ns j efs x,
      getKey? fields "node" = some (.arr ns) →
      ns.get? j = some (.obj efs) →
      getKey? efs "id" = some x →
      hashable x = false →
      ∀ v' u', uuidMapper uuids u (.obj fields) ≠ (.ok v', u')) := by
  have hmain : ∀ fields ns, getKey? fields "node" = some (.arr ns) →
      (∀ e ∈ ns, ∃ efs x, e = .obj efs ∧ getKey? efs "id" = some x ∧
        hashable x = true) →
      iterOK ((getKey? fields "connection").getD (.arr [])) = true →
      ∃ ns1 ns2 u',
        processParsed path tp tc (.obj fields) =
          .ok (some (.obj (setKey (setKey (setKey fields "node" (.arr ns1))
            "promptTokens" (.num (tp : Int))) "completionTokens" (.num (tc : Int))))) ∧
        uuidMapper uuids u
          (.obj (setKey (setKey (setKey fields "node" (.arr ns1))
            "promptTokens" (.num (tp : Int))) "completionTokens" (.num (tc : Int)))) =
          (.ok (.obj (setKey (setKey (setKey (setKey fields "node" (.arr ns1))
            "promptTokens" (.num (tp : Int))) "completionTokens" (.num (tc : Int)))
              "node" (.arr ns2))), u') := by
    intro fields ns hnode hids hconn
    obtain ⟨ns1, hst, hlen1, hrec1⟩ :=
      stampList_of_objs path ns (by
        intro e he
        obtain ⟨efs, x, he0, _, _⟩ := hids e he
        exact ⟨efs, he0⟩)
    have hns1 : ∀ e ∈ ns1, ∃ efs x, e = .obj efs ∧ getKey? efs "id" = some x ∧
        hashable x = true := by
      intro e he
      obtain ⟨j, hj⟩ := List.mem_iff_get?.mp he
      obtain ⟨efs, hj0, hj1⟩ := hrec1 j e hj
      obtain ⟨efs0, x0, he0, hid0, hh0⟩ := hids (.obj efs) (List.get?_mem hj0)
      have hefs : efs = efs0 := by injection he0
      subst hefs
      refine ⟨setKey efs "filepath" (.str path), x0, hj1, ?_, hh0⟩
      rw [getKey?_setKey_ne efs "filepath" "id" (.str path) (by decide)]
      exact hid0
    obtain ⟨ns2, hrm, hlen2, hrec2⟩ := remapNodes_of_ids uuids ns1 u hns1
    have hkeep : hasKey fields "node" = true := by simp [hasKey, hnode]
    refine ⟨ns1, ns2, u + ns1.length, ?_, ?_⟩
    · simp only [processParsed, hnode, Option.getD_some, stampNodes, pyIterate, hst,
        exceptBind_ok, hconn, if_true, hkeep]
    · simp only [uuidMapper]
      rw [getKey?_setKey_ne _ "completionTokens" "node" _ (by decide),
        getKey?_setKey_ne _ "promptTokens" "node" _ (by decide),
        getKey?_setKey_self]
      simp only [pyIterate, hrm]
  refine ⟨?_, ?_, ?_, ?_, ?_⟩
  · intro fields ns hnode hids hconn
    have hconn' : iterOK ((getKey? fields "connection").getD (.arr [])) = true := by
      simp [hasKey] at hconn
      simp [hconn, iterOK]
    obtain ⟨ns1, ns2, u', hpp, hmap⟩ := hmain fields ns hnode hids hconn'
    refine ⟨_, _, u', hpp, hmap, ?_⟩
    simp [hasKey] at hconn
    rw [hasKey_setKey_ne _ "node" "connection" _ (by decide),
      hasKey_setKey_ne _ "completionTokens" "connection" _ (by decide),
      hasKey_setKey_ne _ "promptTokens" "connection" _ (by decide),
      hasKey_setKey_ne _ "node" "connection" _ (by decide)]
    simp [hasKey, hconn]
  · intro fields hnomiss hconn
    have hnode : getKey? fields "node" = none := by
      simp [hasKey] at hnomiss
      exact hnomiss
    refine ⟨.obj (setKey (setKey fields "promptTokens" (.num (tp : Int)))
      "completionTokens" (.num (tc : Int))), ?_, ?_⟩
    · simp only [processParsed, hnode, Option.getD_none, stampNodes, pyIterate,
        stampList, exceptBind_ok, hconn, if_true]
      simp [hasKey, hnode]
    · simp only [uuidMapper]
      rw [getKey?_setKey_ne _ "completionTokens" "node" _ (by decide),
        getKey?_setKey_ne _ "promptTokens" "node" _ (by decide), hnode]
  · intro fields ns hnode hids hconn
    obtain ⟨ns1, ns2, u', hpp, hmap⟩ := hmain fields ns hnode hids hconn
    exact ⟨_, _, u', hpp, hmap⟩
  · intro env render2 mi n msgs msgs' kk k' uu v e hext herr
    conv_lhs => rw [generateUMLLoop]
    rw [hext]
    dsimp only
    rcases hm : uuidMapper env.uuids uu v with ⟨mr, u2⟩
    rw [hm] at herr
    dsimp only at herr
    subst herr
    rfl
  · intro fields ns j efs x hnode hj hid hh v' u' hcontra
    simp only [uuidMapper, hnode, pyIterate] at hcontra
    rcases hrm : remapNodes uuids u ns with ⟨mr, u2⟩
    rw [hrm] at hcontra
    match mr with
    | .error e => simp [Prod.ext_iff] at hcontra
    | .ok elems' => exact remapNodes_unhashable uuids ns j efs x u hj hid hh elems' u2 hrm

/-- The uuid stream of the C10 witness and counterexample runs. -/
def c10Uuids : Nat → String := fun _ => "u"

/-- Response text of the C10 witness run for part (4): a fenced empty object. -/
def c10Text : String := "```json\n\x7b\x7d\n```"

/-- Environment of the C10 witness run for part (4). -/
def c10Env : UMLEnv :=
  { llm := fun _ => .ok ⟨c10Text, 1, 1, "stop"⟩
    jparse := fun s => if s = "\x7b\x7d" then some (.obj []) else none
    uuids := c10Uuids }

/-- The parsed object of the C10 counterexample run: its `node` value is a
list of dicts each carrying an `id` key and there is no `connection` key —
exactly the shape the original claim lets pass — but the `id` value is a
list. -/
def c10BadParsed : JVal := .obj [("node", .arr [.obj [("id", .arr [])]])]

/-- Fenced-body text of the C10 counterexample run (what `json.loads` sees). -/
def c10BadBody : String := "\x7b\"node\": [\x7b\"id\": []\x7d]\x7d"

/-- Response text of the C10 counterexample run. -/
def c10BadText : String := "```json\n" ++ c10BadBody ++ "\n```"

/-- Environment of the C10 counterexample run. -/
def c10BadEnv : UMLEnv :=
  { llm := fun _ => .ok ⟨c10BadText, 1, 1, "stop"⟩
    jparse := fun s => if s = c10BadBody then some c10BadParsed else none
    uuids := c10Uuids }

set_option maxRecDepth 8000 in
/-- C10, counterexample: the claim's "no other schema validation is applied to
the parsed object" is false. The parsed object `c10BadParsed` has a `node`
list of dicts each carrying an `id` key and no `connection` key, and it
survives extraction and stamping — yet the attempt dies in `__uuidMapper`:
`uuidMapper[newBlock["id"]] = str(uuid4())` uses the old id as a dict key and
the list id `[]` is unhashable in CPython (`TypeError`). Under
`generateUMLBlock` with two retries every attempt fails identically and the
call returns an absent result. -/
theorem uml_c10_counterexample :
    nodesOf c10BadParsed = [.obj [("id", .arr [])]] ∧
    hasKey [("node", JVal.arr [.obj [("id", .arr [])]])] "connection" = false ∧
    (∃ v, processParsed "p" 1 1 c10BadParsed = .ok (some v) ∧
      (uuidMapper c10Uuids 0 v).1 = .error .typeError) ∧
    (generateUMLLoop c10BadEnv "p" "R" 0 2 [] 0 0).1 = none := by
  exact ⟨rfl, rfl, ⟨_, rfl, rfl⟩, rfl⟩

set_option maxRecDepth 4000 in
/-- C10 witness: the five parts of the amended schema-handling theorem at
concrete parsed objects, the one-retry step on a run whose fenced block is
`{}`, and the never-succeeding remap of a node entry whose id is a list. -/
theorem uml_c10_amended_witness :
    (∃ v outF u',
      processParsed "p" 1 1 (.obj [("node", .arr [.obj [("id", .str "a")]])]) =
        .ok (some v) ∧
      uuidMapper c10Uuids 0 v = (.ok (.obj outF), u') ∧
      hasKey outF "connection" = false) ∧
    (∃ v, processParsed "p" 1 1 (.obj [("x", .null)]) = .ok (some v) ∧
      (uuidMapper c10Uuids 0 v).1 = .error .keyError) ∧
    (∃ v v' u',
      processParsed "p" 1 1
        (.obj [("node", .arr [.obj [("id", .str "b")]]), ("connection", .str "c")]) =
        .ok (some v) ∧
      uuidMapper c10Uuids 0 v = (.ok v', u')) ∧
    (generateUMLLoop c10Env "p" "R" 0 2 [] 0 0 =
      generateUMLLoop c10Env "p" "R" 0 1
        [⟨"user", umlPrependMsg "R"⟩, ⟨"assistant", c10Text⟩] 1
        (uuidMapper c10Env.uuids 0
          (.obj [("promptTokens", .num 1), ("completionTokens", .num 1)])).2) ∧
    (∀ v' u', uuidMapper c10Uuids 0
        (.obj [("node", .arr [.obj [("id", .arr [])]])]) ≠ (.ok v', u')) := by
  refine ⟨?_, ?_, ?_, ?_, ?_⟩
  · exact (uml_c10_amended "p" 1 1 c10Uuids 0).1 [("node", .arr [.obj [("id", .str "a")]])]
      [.obj [("id", .str "a")]] rfl
      (by intro e he
          simp at he
          subst he
          exact ⟨[("id", JVal.str "a")], JVal.str "a", rfl, rfl, rfl⟩) rfl
  · exact (uml_c10_amended "p" 1 1 c10Uuids 0).2.1 [("x", .null)] rfl rfl
  · exact (uml_c10_amended "p" 1 1 c10Uuids 0).2.2.1
      [("node", .arr [.obj [("id", .str "b")]]), ("connection", .str "c")]
      [.obj [("id", .str "b")]] rfl
      (by intro e he
          simp at he
          subst he
          exact ⟨[("id", JVal.str "b")], JVal.str "b", rfl, rfl, rfl⟩) rfl
  · exact (uml_c10_amended "p" 1 1 c10Env.uuids 0).2.2.2.1 c10Env "R" 0 1 [] _ 0 _ 0 _
      PyErr.keyError rfl rfl
  · exact (uml_c10_amended "p" 1 1 c10Uuids 0).2.2.2.2
      [("node", .arr [.obj [("id", .arr [])]])] [.obj [("id", .arr [])]] 0
      [("id", JVal.arr [])] (.arr []) rfl rfl rfl rfl

/-! ## Claims C6 and C7: success characterization of the UML pipeline -/

/-- A successful `generateUMLBlock` outcome is the remapped value of one
successful extraction. -/
theorem genUMLLoop_success (env : UMLEnv) (path render : String) (mi : Nat) :
    ∀ n msgs k u out msgs' k' u2,
      generateUMLLoop env path render mi n msgs k u = (some out, msgs', k', u2) →
      ∃ msgs0 k0 u0 v,
        extractUMLContent env path render mi msgs0 k0 = (.ok (some v), msgs', k') ∧
        uuidMapper env.uuids u0 v = (.ok out, u2) := by
  intro n
  induction n with
  | zero =>
    intro msgs k u out msgs' k' u2 h
    simp [generateUMLLoop] at h
  | succ n ih =>
    intro msgs k u out msgs' k' u2 h
    rw [generateUMLLoop] at h
    rcases hext : extractUMLContent env path render mi msgs k with ⟨res, msgs1, k1⟩
    rw [hext] at h
    match res with
    | .error e => exact ih msgs1 k1 u out msgs' k' u2 h
    | .ok none => exact ih msgs1 k1 u out msgs' k' u2 h
    | .ok (some v) =>
      dsimp only at h
      rcases hm : uuidMapper env.uuids u v with ⟨mr, u1⟩
      rw [hm] at h
      match mr with
      | .error e => exact ih msgs1 k1 u1 out msgs' k' u2 h
      | .ok v1 =>
        simp [Prod.ext_iff] at h
        refine ⟨msgs, k, u, v, ?_, ?_⟩
        · rw [hext, h.2.1, h.2.2.1]
        · rw [hm, h.1, h.2.2.2]

/-- A successful extraction found a fenced block in the accumulated buffer,
parsed it, and post-processed the parsed value. -/
theorem extract_success (env : UMLEnv) (path render : String) (mi : Nat)
    (msgs : List Msg) (k : Nat) (v : JVal) (msgs' : List Msg) (k' : Nat)
    (h : extractUMLContent env path render mi msgs k = (.ok (some v), msgs', k')) :
    ∃ buf tp tc body parsed,
      extractFenced buf = some body ∧ env.jparse body = some parsed ∧
      processParsed path tp tc parsed = .ok (some v) := by
  unfold extractUMLContent at h
  dsimp only at h
  rcases hl : umlLoop env.llm mi (mi + 1) 0
      (msgs ++ [⟨"user", umlPrependMsg render⟩]) "" 0 0 k with ⟨res, msgs2, k2⟩
  rw [hl] at h
  match res with
  | none => simp [Prod.ext_iff] at h
  | some (buf, tp2, tc2) =>
    dsimp only at h
    rcases hf : extractFenced buf with _ | body
    · rw [hf] at h; simp [Prod.ext_iff] at h
    rw [hf] at h; dsimp only at h
    rcases hj : env.jparse body with _ | parsed
    · rw [hj] at h; simp [Prod.ext_iff] at h
    rw [hj] at h
    simp [Prod.ext_iff] at h
    exact ⟨buf, tp2, tc2, body, parsed, hf, hj, h.1⟩

/-- A successful post-processing step: the parsed value was an object, its
nodes were stamped, and the token totals were attached. -/
theorem processParsed_success (path : String) (tp tc : Nat) (parsed v : JVal)
    (h : processParsed path tp tc parsed = .ok (some v)) :
    ∃ fields nodesVal', parsed = .obj fields ∧
      stampNodes path ((getKey? fields "node").getD (.arr [])) = .ok nodesVal' ∧
      v = .obj (setKey (setKey
        (if hasKey fields "node" then setKey fields "node" nodesVal' else fields)
        "promptTokens" (.num (tp : Int))) "completionTokens" (.num (tc : Int))) := by
  match parsed with
  | .obj fields =>
    have h2 : (match stampNodes path ((getKey? fields "node").getD (.arr [])) with
        | Except.error e => Except.error e
        | Except.ok nodesVal2 =>
          if iterOK ((getKey? fields "connection").getD (.arr [])) = true then
            Except.ok (some (JVal.obj (setKey (setKey
              (if hasKey fields "node" = true then setKey fields "node" nodesVal2
               else fields)
              "promptTokens" (JVal.num (tp : Int)))
              "completionTokens" (JVal.num (tc : Int)))))
          else Except.error PyErr.typeError) = Except.ok (some v) := h
    rcases hst : stampNodes path ((getKey? fields "node").getD (.arr [])) with e | nv2
    · rw [hst] at h2; simp at h2
    rw [hst] at h2; dsimp only at h2
    rcases hio : iterOK ((getKey? fields "connection").getD (.arr [])) with _ | _
    · rw [hio] at h2; simp at h2
    · rw [hio] at h2
      simp at h2
      exact ⟨fields, nv2, rfl, hst, h2.symm⟩
  | .null => simp [processParsed] at h
  | .bool b => simp [processParsed] at h
  | .num m => simp [processParsed] at h
  | .str s2 => simp [processParsed] at h
  | .arr xs => simp [processParsed] at h

/-- A successful remapping: the value was an object with a `node` entry whose
iteration and per-element remap succeeded; only a list value is visibly
replaced. -/
theorem uuidMapper_success (uuids : Nat → String) (u : Nat) (result v' : JVal)
    (u' : Nat) (h : uuidMapper uuids u result = (.ok v', u')) :
    ∃ fields nv elems elems',
      result = .obj fields ∧ getKey? fields "node" = some nv ∧
      pyIterate nv = .ok elems ∧ remapNodes uuids u elems = (.ok elems', u') ∧
      ((∃ xs, nv = .arr xs ∧ elems = xs ∧
          v' = .obj (setKey fields "node" (.arr elems'))) ∨
       ((∀ xs, nv ≠ .arr xs) ∧ v' = .obj fields)) := by
  match result with
  | .obj fields =>
    simp only [uuidMapper] at h
    rcases hn : getKey? fields "node" with _ | nv
    · rw [hn] at h; simp [Prod.ext_iff] at h
    rw [hn] at h; dsimp only at h
    rcases hit : pyIterate nv with e | elems
    · rw [hit] at h; simp [Prod.ext_iff] at h
    rw [hit] at h; dsimp only at h
    rcases hrm : remapNodes uuids u elems with ⟨mr, u2⟩
    rw [hrm] at h
    match mr with
    | .error e => simp [Prod.ext_iff] at h
    | .ok elems' =>
      dsimp only at h
      match nv with
      | .arr xs =>
        simp [Prod.ext_iff] at h
        refine ⟨fields, .arr xs, elems, elems', rfl, hn, hit, ?_, ?_⟩
        · rw [hrm, h.2]
        · exact .inl ⟨xs, rfl, by simpa [pyIterate] using hit.symm, h.1.symm⟩
      | .null =>
        simp [Prod.ext_iff] at h
        exact ⟨fields, .null, elems, elems', rfl, hn, hit, (by rw [hrm, h.2]),
          .inr ⟨(by intro xs hx; cases hx), h.1.symm⟩⟩
      | .bool b =>
        simp [Prod.ext_iff] at h
        exact ⟨fields, .bool b, elems, elems', rfl, hn, hit, (by rw [hrm, h.2]),
          .inr ⟨(by intro xs hx; cases hx), h.1.symm⟩⟩
      | .num m =>
        simp [Prod.ext_iff] at h
        exact ⟨fields, .num m, elems, elems', rfl, hn, hit, (by rw [hrm, h.2]),
          .inr ⟨(by intro xs hx; cases hx), h.1.symm⟩⟩
      | .str s2 =>
        simp [Prod.ext_iff] at h
        exact ⟨fields, .str s2, elems, elems', rfl, hn, hit, (by rw [hrm, h.2]),
          .inr ⟨(by intro xs hx; cases hx), h.1.symm⟩⟩
      | .obj ofs =>
        simp [Prod.ext_iff] at h
        exact ⟨fields, .obj ofs, elems, elems', rfl, hn, hit, (by rw [hrm, h.2]),
          .inr ⟨(by intro xs hx; cases hx), h.1.symm⟩⟩
  | .null => simp [uuidMapper, Prod.ext_iff] at h
  | .bool b => simp [uuidMapper, Prod.ext_iff] at h
  | .num m => simp [uuidMapper, Prod.ext_iff] at h
  | .str s2 => simp [uuidMapper, Prod.ext_iff] at h
  | .arr xs => simp [uuidMapper, Prod.ext_iff] at h

/-- Per-index characterization of a stamping pass that succeeded. -/
theorem stampList_ok (path : String) :
    ∀ ns ns', stampList path ns = .ok ns' →
      ns'.length = ns.length ∧
      ∀ j e', ns'.get? j = some e' →
        ∃ efs, ns.get? j = some (.obj efs) ∧
          e' = .obj (setKey efs "filepath" (.str path)) := by
  intro ns
  induction ns with
  | nil =>
    intro ns' h
    simp [stampList] at h
    subst h
    exact ⟨rfl, by intro j e' hj; simp at hj⟩
  | cons e0 rest ih =>
    intro ns' h
    match e0 with
    | .obj efs0 =>
      unfold stampList at h
      rcases hre : stampList path rest with e | rest'
      · rw [hre] at h; simp at h
      rw [hre] at h
      simp at h
      subst h
      obtain ⟨hlen, hrec⟩ := ih rest' hre
      refine ⟨by simp [hlen], ?_⟩
      intro j e' hj
      match j with
      | 0 =>
        have : some (JVal.obj (setKey efs0 "filepath" (.str path))) = some e' := hj
        exact ⟨efs0, rfl, (Option.some_inj.mp this).symm⟩
      | j + 1 => exact hrec j e' hj
    | .null => simp [stampList] at h
    | .bool b => simp [stampList] at h
    | .num m => simp [stampList] at h
    | .str s2 => simp [stampList] at h
    | .arr xs => simp [stampList] at h

/-- Per-index characterization of a remap pass that succeeded. -/
theorem remapNodes_ok (uuids : Nat → String) :
    ∀ ns u ns' u', remapNodes uuids u ns = (.ok ns', u') →
      ns'.length = ns.length ∧
      ∀ j e', ns'.get? j = some e' →
        ∃ efs, ns.get? j = some (.obj efs) ∧
          e' = .obj (setKey efs "id" (.str (uuids (u + j)))) := by
  intro ns
  induction ns with
  | nil =>
    intro u ns' u' h
    simp [remapNodes, Prod.ext_iff] at h
    obtain ⟨h1, h2⟩ := h
    subst h1
    exact ⟨rfl, by intro j e' hj; simp at hj⟩
  | cons e0 rest ih =>
    intro u ns' u' h
    match e0 with
    | .obj efs0 =>
      unfold remapNodes at h
      rcases hid : getKey? efs0 "id" with _ | x
      · rw [hid] at h; simp [Prod.ext_iff] at h
      rw [hid] at h; dsimp only at h
      rcases hh : hashable x with _ | _
      · rw [hh] at h; simp [Prod.ext_iff] at h
      rw [hh, if_pos rfl] at h
      rcases hre : remapNodes uuids (u + 1) rest with ⟨mr, u2⟩
      rw [hre] at h
      match mr with
      | .error e => simp [Prod.ext_iff] at h
      | .ok rest' =>
        simp [Prod.ext_iff] at h
        obtain ⟨hns', hu2⟩ := h
        rw [← hns']
        obtain ⟨hlen, hrec⟩ := ih (u + 1) rest' u2 hre
        refine ⟨by simp [hlen], ?_⟩
        intro j e' hj
        match j with
        | 0 =>
          have : some (JVal.obj (setKey efs0 "id" (.str (uuids u)))) = some e' := hj
          refine ⟨efs0, rfl, ?_⟩
          rw [← Option.some_inj.mp this]
          simp
        | j + 1 =>
          obtain ⟨efs, h1, h2⟩ := hrec j e' hj
          refine ⟨efs, h1, ?_⟩
          have harith : u + 1 + j = u + (j + 1) := by omega
          rw [← harith]
          exact h2
    | .null => simp [remapNodes, Prod.ext_iff] at h
    | .bool b => simp [remapNodes, Prod.ext_iff] at h
    | .num m => simp [remapNodes, Prod.ext_iff] at h
    | .str s2 => simp [remapNodes, Prod.ext_iff] at h
    | .arr xs => simp [remapNodes, Prod.ext_iff] at h

/-- The ids of a successfully remapped node list are exactly the fresh
identifiers `uuids u, uuids (u+1), ...`, in order. -/
theorem remapNodes_ids (uuids : Nat → String) :
    ∀ elems u elems' u', remapNodes uuids u elems = (.ok elems', u') →
      elems'.filterMap idOf =
        (List.range elems.length).map (fun j => .str (uuids (u + j))) := by
  intro elems
  induction elems with
  | nil =>
    intro u elems' u' h
    simp [remapNodes, Prod.ext_iff] at h
    obtain ⟨h1, h2⟩ := h
    subst h1
    simp
  | cons e0 rest ih =>
    intro u elems' u' h
    match e0 with
    | .obj efs0 =>
      unfold remapNodes at h
      rcases hid : getKey? efs0 "id" with _ | x
      · rw [hid] at h; simp [Prod.ext_iff] at h
      rw [hid] at h; dsimp only at h
      rcases hh : hashable x with _ | _
      · rw [hh] at h; simp [Prod.ext_iff] at h
      rw [hh, if_pos rfl] at h
      rcases hre : remapNodes uuids (u + 1) rest with ⟨mr, u2⟩
      rw [hre] at h
      match mr with
      | .error e => simp [Prod.ext_iff] at h
      | .ok rest' =>
        simp [Prod.ext_iff] at h
        rw [← h.1]
        have hrec := ih (u + 1) rest' u2 hre
        simp only [List.filterMap_cons, idOf, getKey?_setKey_self, List.length_cons]
        rw [hrec, List.range_succ_eq_map]
        simp only [List.map_cons, List.map_map]
        congr 1
        · apply List.map_congr_left
          intro a ha
          simp only [Function.comp_apply]
          have harith : u + 1 + a = u + (a + 1) := by omega
          rw [harith]
    | .null => simp [remapNodes, Prod.ext_iff] at h
    | .bool b => simp [remapNodes, Prod.ext_iff] at h
    | .num m => simp [remapNodes, Prod.ext_iff] at h
    | .str s2 => simp [remapNodes, Prod.ext_iff] at h
    | .arr xs => simp [remapNodes, Prod.ext_iff] at h

/-- A successful node-stamping pass: the value was iterated and each element
stamped; only a list value is visibly replaced. -/
theorem stampNodes_success (path : String) (nv0 nodesVal2 : JVal)
    (h : stampNodes path nv0 = .ok nodesVal2) :
    ∃ elems0 stamped, pyIterate nv0 = .ok elems0 ∧
      stampList path elems0 = .ok stamped ∧
      ((∃ xs, nv0 = .arr xs ∧ elems0 = xs ∧ nodesVal2 = .arr stamped) ∨
       ((∀ xs, nv0 ≠ .arr xs) ∧ nodesVal2 = nv0)) := by
  unfold stampNodes at h
  rcases hit : pyIterate nv0 with e | elems0
  · rw [hit] at h; simp at h
  rw [hit] at h; dsimp only at h
  rcases hst : stampList path elems0 with e | stamped
  · rw [hst] at h; simp at h
  rw [hst] at h; dsimp only at h
  match nv0 with
  | .arr xs =>
    simp at h
    exact ⟨elems0, stamped, rfl, hst,
      .inl ⟨xs, rfl, (by simp [pyIterate] at hit; exact hit.symm), h.symm⟩⟩
  | .null =>
    simp at h
    exact ⟨elems0, stamped, rfl, hst, .inr ⟨(by intro xs hx; cases hx), h.symm⟩⟩
  | .bool b =>
    simp at h
    exact ⟨elems0, stamped, rfl, hst, .inr ⟨(by intro xs hx; cases hx), h.symm⟩⟩
  | .num m =>
    simp at h
    exact ⟨elems0, stamped, rfl, hst, .inr ⟨(by intro xs hx; cases hx), h.symm⟩⟩
  | .str s2 =>
    simp at h
    exact ⟨elems0, stamped, rfl, hst, .inr ⟨(by intro xs hx; cases hx), h.symm⟩⟩
  | .obj ofs =>
    simp at h
    exact ⟨elems0, stamped, rfl, hst, .inr ⟨(by intro xs hx; cases hx), h.symm⟩⟩

theorem nodeIds_obj_arr (fields : List (String × JVal)) (xs : List JVal)
    (h : getKey? fields "node" = some (.arr xs)) :
    nodeIds (.obj fields) = xs.filterMap idOf := by
  simp [nodeIds, h]

theorem nodesOf_obj_arr (fields : List (String × JVal)) (xs : List JVal)
    (h : getKey? fields "node" = some (.arr xs)) :
    nodesOf (.obj fields) = xs := by
  simp [nodesOf, h]

theorem nodeIds_obj_nonarr (fields : List (String × JVal)) (nv : JVal)
    (h : getKey? fields "node" = some nv) (hn : ∀ xs, nv ≠ .arr xs) :
    nodeIds (.obj fields) = [] := by
  match nv with
  | .arr xs => exact absurd rfl (hn xs)
  | .null => simp [nodeIds, h]
  | .bool b => simp [nodeIds, h]
  | .num m => simp [nodeIds, h]
  | .str s2 => simp [nodeIds, h]
  | .obj ofs => simp [nodeIds, h]

theorem nodesOf_obj_nonarr (fields : List (String × JVal)) (nv : JVal)
    (h : getKey? fields "node" = some nv) (hn : ∀ xs, nv ≠ .arr xs) :
    nodesOf (.obj fields) = [] := by
  match nv with
  | .arr xs => exact absurd rfl (hn xs)
  | .null => simp [nodesOf, h]
  | .bool b => simp [nodesOf, h]
  | .num m => simp [nodesOf, h]
  | .str s2 => simp [nodesOf, h]
  | .obj ofs => simp [nodesOf, h]

/-- C6: in every successful `FileToUMLAgent.generate` call, every node of the
returned graph is stamped with the input file's path, the output node ids are
pairwise distinct (they are consecutive fresh identifiers, assuming the
identifier generator never repeats), and every output id differs from every
id any parsed model output can carry (assuming the generator's global
uniqueness: its values never collide with model-produced ids). -/
theorem uml_c6_filepath_fresh_ids (env : UMLEnv) (path render : String)
    (mi retries : Nat) (msgs : List Msg) (k u : Nat) (out : JVal)
    (msgs' : List Msg) (k' u2 : Nat)
    (hinj : Function.Injective env.uuids)
    (hfresh : ∀ s w, env.jparse s = some w → ∀ m, JVal.str (env.uuids m) ∉ nodeIds w)
    (h : generateUMLBlock env path render mi retries msgs k u = (some out, msgs', k', u2)) :
    (∀ e ∈ nodesOf out, ∃ efs, e = .obj efs ∧
      getKey? efs "filepath" = some (.str path)) ∧
    (nodeIds out).Pairwise (· ≠ ·) ∧
    (∀ x ∈ nodeIds out, ∀ s w, env.jparse s = some w → x ∉ nodeIds w) := by
  obtain ⟨msgs0, k0, u0, v, hext, hmap⟩ :=
    genUMLLoop_success env path render mi retries msgs k u out msgs' k' u2 h
  obtain ⟨buf, tp, tc, body, parsed, hf, hj, hpp⟩ :=
    extract_success env path render mi msgs0 k0 v msgs' k' hext
  obtain ⟨fields0, nodesVal2, hpe, hsn, hv⟩ := processParsed_success path tp tc parsed v hpp
  obtain ⟨fields, nv, elems, elems', hvobj, hnode, hit, hrm, hcase⟩ :=
    uuidMapper_success env.uuids u0 v out u2 hmap
  rw [hv] at hvobj
  have hfe : setKey (setKey
      (if hasKey fields0 "node" = true then setKey fields0 "node" nodesVal2 else fields0)
      "promptTokens" (.num (tp : Int))) "completionTokens" (.num (tc : Int)) = fields := by
    injection hvobj
  by_cases hk : hasKey fields0 "node" = true
  case neg =>
    exfalso
    rw [if_neg hk] at hfe
    rw [← hfe] at hnode
    rw [getKey?_setKey_ne _ "completionTokens" "node" _ (by decide),
      getKey?_setKey_ne _ "promptTokens" "node" _ (by decide)] at hnode
    simp [hasKey] at hk
    rw [hk] at hnode
    cases hnode
  case pos =>
    rw [if_pos hk] at hfe
    have hnv : nv = nodesVal2 := by
      rw [← hfe] at hnode
      rw [getKey?_setKey_ne _ "completionTokens" "node" _ (by decide),
        getKey?_setKey_ne _ "promptTokens" "node" _ (by decide),
        getKey?_setKey_self] at hnode
      exact (Option.some_inj.mp hnode).symm
    subst hnv
    obtain ⟨nval0, hnval0⟩ : ∃ nval0, getKey? fields0 "node" = some nval0 := by
      simp [hasKey, Option.isSome_iff_exists] at hk
      exact hk
    rw [hnval0, Option.getD_some] at hsn
    obtain ⟨elems0, stamped, hit0, hstl, hstcase⟩ := stampNodes_success path nval0 nv hsn
    rcases hcase with ⟨xs, hxs, hexs, hout⟩ | ⟨hnarr, hout⟩
    · -- the node value is a list: remapped entries are returned
      rcases hstcase with ⟨xs0, hxs0, hexs0, hstv⟩ | ⟨hstnarr, hstv⟩
      · -- the parsed node value was a list as well
        have hsx : stamped = xs := by
          rw [hstv] at hxs
          injection hxs
        have helems : elems = stamped := by rw [hexs, hsx]
        have hrm2 : remapNodes env.uuids u0 stamped = (.ok elems', u2) := by
          rw [← helems]
          exact hrm
        have hids : nodeIds out = (List.range stamped.length).map
            (fun j => JVal.str (env.uuids (u0 + j))) := by
          rw [hout, nodeIds_obj_arr _ elems' (by rw [getKey?_setKey_self])]
          exact remapNodes_ids env.uuids stamped u0 elems' u2 hrm2
        obtain ⟨hlenr, hrecr⟩ := remapNodes_ok env.uuids stamped u0 elems' u2 hrm2
        obtain ⟨hlens, hrecs⟩ := stampList_ok path elems0 stamped hstl
        refine ⟨?_, ?_, ?_⟩
        · intro e he
          rw [hout, nodesOf_obj_arr _ elems' (by rw [getKey?_setKey_self])] at he
          obtain ⟨j, hjg⟩ := List.mem_iff_get?.mp he
          obtain ⟨efs, hj1, hj2⟩ := hrecr j e hjg
          obtain ⟨efs0, hj3, hj4⟩ := hrecs j (.obj efs) hj1
          have hef : efs = setKey efs0 "filepath" (.str path) := by
            injection hj4
          refine ⟨setKey efs "id" (.str (env.uuids (u0 + j))), hj2, ?_⟩
          rw [hef, getKey?_setKey_ne _ "id" "filepath" _ (by decide), getKey?_setKey_self]
        · rw [hids]
          rw [List.pairwise_map]
          refine List.Pairwise.imp ?_ (List.pairwise_lt_range stamped.length)
          intro a b hab hcon
          have h9 : env.uuids (u0 + a) = env.uuids (u0 + b) := by injection hcon
          have := hinj h9
          omega
        · intro x hx s w hw
          rw [hids] at hx
          obtain ⟨j, -, hxj⟩ := List.mem_map.mp hx
          rw [← hxj]
          exact hfresh s w hw (u0 + j)
      · -- the parsed node value was not a list: contradiction with remapping a list
        exfalso
        rw [hstv] at hxs
        exact hstnarr xs hxs
    · -- the node value is not a list: the returned graph has no node entries
      have hnode2 : getKey? fields "node" = some nv := hnode
      refine ⟨?_, ?_, ?_⟩
      · intro e he
        rw [hout, nodesOf_obj_nonarr fields nv hnode2 hnarr] at he
        simp at he
      · rw [hout, nodeIds_obj_nonarr fields nv hnode2 hnarr]
        exact List.Pairwise.nil
      · intro x hx
        rw [hout, nodeIds_obj_nonarr fields nv hnode2 hnarr] at hx
        simp at hx

/-- C7: in every successful `FileToUMLAgent.generate` call, the `connection`
value of the returned graph is exactly the `connection` value of the parsed
model output — extraction only stamps nodes and attaches token totals, the
`for connectionBlock in connections: pass` loop changes nothing, and
`__uuidMapper` rewrites node ids only, so connection `source`/`target`
references keep their pre-remap values. -/
theorem uml_c7_connections_unchanged (env : UMLEnv) (path render : String)
    (mi retries : Nat) (msgs : List Msg) (k u : Nat) (out : JVal)
    (msgs' : List Msg) (k' u2 : Nat)
    (h : generateUMLBlock env path render mi retries msgs k u = (some out, msgs', k', u2)) :
    ∃ outF pF s, out = .obj outF ∧ env.jparse s = some (.obj pF) ∧
      getKey? outF "connection" = getKey? pF "connection" := by
  obtain ⟨msgs0, k0, u0, v, hext, hmap⟩ :=
    genUMLLoop_success env path render mi retries msgs k u out msgs' k' u2 h
  obtain ⟨buf, tp, tc, body, parsed, hf, hj, hpp⟩ :=
    extract_success env path render mi msgs0 k0 v msgs' k' hext
  obtain ⟨fields0, nodesVal2, hpe, hsn, hv⟩ := processParsed_success path tp tc parsed v hpp
  obtain ⟨fields, nv, elems, elems', hvobj, hnode, hit, hrm, hcase⟩ :=
    uuidMapper_success env.uuids u0 v out u2 hmap
  rw [hv] at hvobj
  have hfe : setKey (setKey
      (if hasKey fields0 "node" = true then setKey fields0 "node" nodesVal2 else fields0)
      "promptTokens" (.num (tp : Int))) "completionTokens" (.num (tc : Int)) = fields := by
    injection hvobj
  have hconnF : getKey? fields "connection" = getKey? fields0 "connection" := by
    rw [← hfe]
    rw [getKey?_setKey_ne _ "completionTokens" "connection" _ (by decide),
      getKey?_setKey_ne _ "promptTokens" "connection" _ (by decide)]
    by_cases hk : hasKey fields0 "node" = true
    · rw [if_pos hk, getKey?_setKey_ne _ "node" "connection" _ (by decide)]
    · rw [if_neg hk]
  rw [hpe] at hj
  rcases hcase with ⟨xs, hxs, hexs, hout⟩ | ⟨hnarr, hout⟩
  · refine ⟨setKey fields "node" (.arr elems'), fields0, body, hout, hj, ?_⟩
    rw [getKey?_setKey_ne _ "node" "connection" _ (by decide)]
    exact hconnF
  · exact ⟨fields, fields0, body, hout, hj, hconnF⟩

/-- A string of `m + 1` repeated `'u'` characters differs from any string not
starting with `'u'`. -/
theorem strMk_replicate_ne (m : Nat) (s : String) (h : s.data.head? ≠ some 'u') :
    String.mk (List.replicate (m + 1) 'u') ≠ s := by
  intro he
  apply h
  rw [← he]
  show (List.replicate (m + 1) 'u').head? = some 'u'
  rw [List.replicate_succ]
  rfl

/-- The uuid stream of the C6 witness: the `n`-th identifier is the string of
`n + 1` repeated `'u'`. -/
def c6Uuids : Nat → String := fun n => String.mk (List.replicate (n + 1) 'u')

theorem c6Uuids_inj : Function.Injective c6Uuids := by
  intro a b hab
  simp only [c6Uuids] at hab
  have hd : List.replicate (a + 1) 'u' = List.replicate (b + 1) 'u' :=
    congrArg String.data hab
  have hlen := congrArg List.length hd
  simp at hlen
  omega

/-- The fenced body of the C6 witness response. -/
def c6Body : String := "\x7b\"node\": [\x7b\"id\": \"a\"\x7d, \x7b\"id\": \"b\"\x7d], \"connection\": []\x7d"

/-- The full C6 witness response text. -/
def c6Text : String := "```json\n" ++ c6Body ++ "\n```"

/-- The parsed value of `c6Body`. -/
def c6Parsed : JVal :=
  .obj [("node", .arr [.obj [("id", .str "a")], .obj [("id", .str "b")]]),
        ("connection", .arr [])]

/-- Environment of the C6 witness run. -/
def c6Env : UMLEnv :=
  { llm := fun _ => .ok ⟨c6Text, 3, 4, "stop"⟩
    jparse := fun s => if s = c6Body then some c6Parsed else none
    uuids := c6Uuids }

theorem c6_freshness :
    ∀ s w, c6Env.jparse s = some w → ∀ m, JVal.str (c6Uuids m) ∉ nodeIds w := by
  intro s w hsw m
  simp only [c6Env] at hsw
  split at hsw
  · have hw : w = c6Parsed := (Option.some_inj.mp hsw).symm
    subst hw
    intro hmem
    have hids : nodeIds c6Parsed = [JVal.str "a", JVal.str "b"] := by rfl
    rw [hids] at hmem
    simp only [c6Uuids, List.mem_cons, List.mem_singleton, JVal.str.injEq,
      List.not_mem_nil, or_false] at hmem
    rcases hmem with h1 | h1
    · exact strMk_replicate_ne m "a" (by decide) h1
    · exact strMk_replicate_ne m "b" (by decide) h1
  · cases hsw

/-- The graph the C6 witness run returns. -/
def c6ExpectedOut : JVal :=
  .obj [("node", .arr [
      .obj [("id", .str (c6Uuids 0)), ("filepath", .str "p.py")],
      .obj [("id", .str (c6Uuids 1)), ("filepath", .str "p.py")]]),
    ("connection", .arr []),
    ("promptTokens", .num 3), ("completionTokens", .num 4)]

set_option maxRecDepth 8000 in
/-- C6 witness: the theorem applied to a concrete successful run with two
nodes whose model-chosen ids `a`, `b` are replaced by the fresh `u`, `uu`. -/
theorem uml_c6_witness :
    (∀ e ∈ nodesOf c6ExpectedOut, ∃ efs, e = .obj efs ∧
      getKey? efs "filepath" = some (.str "p.py")) ∧
    (nodeIds c6ExpectedOut).Pairwise (· ≠ ·) ∧
    (∀ x ∈ nodeIds c6ExpectedOut, ∀ s w, c6Env.jparse s = some w → x ∉ nodeIds w) :=
  uml_c6_filepath_fresh_ids c6Env "p.py" "R" 2 5 [⟨"system", "sp"⟩] 0 0 _ _ _ _
    c6Uuids_inj c6_freshness rfl

/-- The fenced body of the C7 witness response. -/
def c7Body : String :=
  "\x7b\"node\": [\x7b\"id\": \"a\"\x7d], \"connection\": [\x7b\"source\": \"a\", \"target\": \"b\"\x7d]\x7d"

/-- The full C7 witness response text. -/
def c7Text : String := "```json\n" ++ c7Body ++ "\n```"

/-- The parsed value of `c7Body`. -/
def c7Parsed : JVal :=
  .obj [("node", .arr [.obj [("id", .str "a")]]),
        ("connection", .arr [.obj [("source", .str "a"), ("target", .str "b")]])]

/-- Environment of the C7 witness run. -/
def c7Env : UMLEnv :=
  { llm := fun _ => .ok ⟨c7Text, 1, 2, "stop"⟩
    jparse := fun s => if s = c7Body then some c7Parsed else none
    uuids := fun _ => "u" }

/-- The graph the C7 witness run returns. -/
def c7ExpectedOut : JVal :=
  .obj [("node", .arr [.obj [("id", .str "u"), ("filepath", .str "p.py")]]),
    ("connection", .arr [.obj [("source", .str "a"), ("target", .str "b")]]),
    ("promptTokens", .num 1), ("completionTokens", .num 2)]

set_option maxRecDepth 8000 in
/-- C7 witness: the theorem applied to a concrete successful run whose
connection list (with its pre-remap `source`/`target` ids) comes through
unchanged. -/
theorem uml_c7_witness :
    ∃ outF pF s, c7ExpectedOut = .obj outF ∧ c7Env.jparse s = some (.obj pF) ∧
      getKey? outF "connection" = getKey? pF "connection" :=
  uml_c7_connections_unchanged c7Env "p.py" "R" 1 5 [⟨"system", "sp"⟩] 0 0 _ _ _ _ rfl

end Agents
